import Mathlib

/-!
Verification development for the Diamond Data Scraper repository.

The definitions below are a shallow embedding of the tabular extraction and
normalization engine in `src/diamond_data_scraper/scraper.py` (the successor of
`src/scraper_logic.py`).  DOM elements are modelled by the data the code reads
from them (cell text, `rowspan` / `colspan` attributes, header fragments);
Python dictionaries are modelled as association lists with Python 3.7 insertion
order semantics; Python `list.insert` is modelled by `pyInsert` (which clamps
the index, as Python does).  The regular expressions that live in the missing
module `diamond_data_scraper/constants.py` are modelled from the specification,
each marked by a doc comment starting with `Modelled from the spec:`.
-/

set_option linter.unusedVariables false

namespace Diamond

/-- Value stored in a record cell: scraped cells are strings, while the
`Year` column added by `add_to_table` is an integer. -/
inductive Val where
  | str : String → Val
  | num : Int → Val
deriving DecidableEq, Repr

/-- A record, i.e. a Python `dict` from column name to cell value, modelled as
an association list in insertion order. -/
abbrev Rec := List (String × Val)

/-- Python `d[k] = v` on an insertion-ordered dict: if the key exists its value
is replaced in place, otherwise the pair is appended at the end. -/
def assocSet {α : Type} (d : List (String × α)) (k : String) (v : α) : List (String × α) :=
  if d.any (fun p => p.1 = k) then
    d.map (fun p => if p.1 = k then (k, v) else p)
  else
    d ++ [(k, v)]

/-- Python `k in d` on a dict. -/
def dictHasKey {α : Type} (d : List (String × α)) (k : String) : Bool :=
  d.any (fun p => p.1 = k)

/-- Python `d.get(k)` / subscript read on a dict (first entry with the key). -/
def dictLookup {α : Type} (d : List (String × α)) (k : String) : Option α :=
  (d.find? (fun p => p.1 = k)).map (fun p => p.2)

/-- Python `d.get(k, dflt)`. -/
def dictGetD {α : Type} (d : List (String × α)) (k : String) (dflt : α) : α :=
  (dictLookup d k).getD dflt

/-- Python `d.pop(k)` (the removal part): drop every entry with the key. -/
def dictRemove {α : Type} (d : List (String × α)) (k : String) : List (String × α) :=
  d.filter (fun p => p.1 ≠ k)

/-- Python `d.setdefault(k, v)`: insert `(k, v)` at the end only when the key
is absent. -/
def dictSetdefault {α : Type} (d : List (String × α)) (k : String) (v : α) :
    List (String × α) :=
  if dictHasKey d k then d else d ++ [(k, v)]

/-- Python `dict(zip(ks, vs))`: fold the zipped pairs into a dict. -/
def dictOfZip {α : Type} (ks : List String) (vs : List α) : List (String × α) :=
  (List.zip ks vs).foldl (fun d kv => assocSet d kv.1 kv.2) []

/-- Keys of a dict, in order. -/
def dictKeys {α : Type} (d : List (String × α)) : List String :=
  d.map Prod.fst

/-- A dict whose keys are pairwise distinct (true of every real Python dict). -/
def keysNodup {α : Type} (d : List (String × α)) : Prop :=
  (dictKeys d).Nodup

/-- Occurrences of a key in a record. -/
def keyCount {α : Type} (d : List (String × α)) (k : String) : Nat :=
  (dictKeys d).count k

/-- Python `list.insert(i, v)`: insert before position `i`, clamping `i` to the
length of the list. -/
def pyInsert {α : Type} (xs : List α) (i : Nat) (v : α) : List α :=
  match xs, i with
  | xs, 0 => v :: xs
  | [], _ + 1 => [v]
  | x :: xs, n + 1 => x :: pyInsert xs n v

/-- Python `str.strip()` (ASCII whitespace at both ends). -/
def trimChars (cs : List Char) : List Char :=
  ((cs.dropWhile Char.isWhitespace).reverse.dropWhile Char.isWhitespace).reverse

/-- Python `str.strip()` on a `String`. -/
def pyStrip (s : String) : String :=
  String.mk (trimChars s.toList)

/-- Fuel-driven core of Python `str.replace(pat, rep)`: replace non-overlapping
occurrences left to right.  The fuel is the length of the scanned list, which
suffices because every step consumes at least one character. -/
def replaceGo (pat rep : List Char) : Nat → List Char → List Char
  | _, [] => []
  | 0, cs => cs
  | fuel + 1, c :: cs =>
    if !pat.isEmpty && pat.isPrefixOf (c :: cs) then
      rep ++ replaceGo pat rep fuel ((c :: cs).drop pat.length)
    else
      c :: replaceGo pat rep fuel cs

/-- Python `str.replace(pat, rep)` for a non-empty pattern. -/
def pyReplace (s pat rep : String) : String :=
  String.mk (replaceGo pat.toList rep.toList s.toList.length s.toList)

/-- Substring test used to model `re.search` of a literal alternative:
does `needle` occur in `hay`? -/
def containsChars (needle : List Char) : List Char → Bool
  | [] => needle.isPrefixOf []
  | c :: cs => needle.isPrefixOf (c :: cs) || containsChars needle cs

/-- String-level substring containment. -/
def strContains (hay needle : String) : Bool :=
  containsChars needle.toList hay.toList

/-! ### Cells and the rowspan carry map (`find_col_names` / `find_cell_data`) -/

/-- A table cell as the scraper reads it: its text and the resolved `rowspan`
attribute (`some n` models a present, truthy attribute string whose `int` is
`n`; `none` models an absent or empty attribute). -/
structure Cell where
  text : String
  rowspan : Option Int
deriving DecidableEq, Repr

/-- The `duplicate_rows` dict of the scraper: column index ↦ `[cell text,
remaining row count]`, in insertion order. -/
abbrev Carry := List (Nat × String × Int)

/-- Python `duplicate_rows[idx] = [text, n]` on the carry dict. -/
def carrySet (c : Carry) (i : Nat) (v : String × Int) : Carry :=
  if c.any (fun e => e.1 = i) then
    c.map (fun e => if e.1 = i then (i, v) else e)
  else
    c ++ [(i, v)]

/-- Read the carry entry for a column index (first entry with the key). -/
def carryLookup (c : Carry) (i : Nat) : Option (String × Int) :=
  (c.find? (fun e => e.1 = i)).map (fun e => e.2)

/-- The `for idx, cell in enumerate(cells)` loop of `find_cell_data`: records
`(cell.text, int(rowspan))` in the carry for each cell with a truthy `rowspan`
attribute and appends the stripped text of every cell to the data row. -/
def cellLoop (idx : Nat) (data : List String) (carry : Carry) :
    List Cell → List String × Carry
  | [] => (data, carry)
  | c :: cs =>
    let carry :=
      match c.rowspan with
      | some n => carrySet carry idx (c.text, n)
      | none => carry
    cellLoop (idx + 1) (data ++ [pyStrip c.text]) carry cs

/-- Embedding of `Scraper.find_cell_data` (scraper.py lines 361–394).  The
cells are those with a `datacolBox`/`datacolBlue` class; an absent row (XPath
failure or no such cells) yields `none` and returns the carry unchanged.  When
an expected column count is known and the row is short (or long), every
pending carried value is reinserted at its recorded index, in insertion order,
and its remaining count is decremented; entries whose count is no longer
positive are then purged (the purge itself runs unconditionally). -/
def find_cell_data (cells : List Cell) (num_cols : Option Int)
    (duplicate_rows : Carry) : Option (List String) × Carry :=
  if cells = [] then (none, duplicate_rows)
  else
    let dc := cellLoop 0 [] duplicate_rows cells
    let dc2 :=
      match num_cols with
      | some m =>
        if (dc.1.length : Int) ≠ m then
          (dc.2.foldl (fun d (e : Nat × String × Int) => pyInsert d e.1 e.2.1) dc.1,
           dc.2.map (fun (e : Nat × String × Int) => (e.1, e.2.1, e.2.2 - 1)))
        else dc
      | none => dc
    (some dc2.1, dc2.2.filter (fun e => e.2.2 > 0))

/-- The `for idx, el in enumerate(elements)` loop of `find_col_names`: records
banner rowspans in a carry map and collects column names, collapsing the
region labels `East`/`Central`/`West` to `Region` and stripping the literal
suffix `" [Click for roster]"` from the others. -/
def colLoop (idx : Nat) (names : List String) (dup : Carry) :
    List Cell → List String × Carry
  | [] => (names, dup)
  | c :: cs =>
    let dup :=
      match c.rowspan with
      | some n => carrySet dup idx (c.text, n)
      | none => dup
    let names :=
      if c.text = "East" ∨ c.text = "Central" ∨ c.text = "West" then
        names ++ ["Region"]
      else
        names ++ [pyStrip (pyReplace c.text " [Click for roster]" "")]
    colLoop (idx + 1) names dup cs

/-- Embedding of `Scraper.find_col_names` (scraper.py lines 333–359).  The
cells are those with a `banner` class; a row without banner cells (or an XPath
failure) yields `(none, none)`. -/
def find_col_names (cells : List Cell) : Option (List String) × Option Carry :=
  if cells = [] then (none, none)
  else
    let nd := colLoop 0 [] [] cells
    (some nd.1, some nd.2)

/-! ### Table classification (`find_table_name_and_columns`) and the row scan -/

/-- One `tr` of a boxed table, as the three row inspectors read it:
the texts of its `h2`/`p` fragments, the resolved `colspan` attribute of its
first `td` (already converted by `int`, `none` on absence or failure), its
banner-class cells and its `datacolBox`/`datacolBlue` cells. -/
structure Row where
  headers : List String
  colspanAttr : Option Int
  bannerCells : List Cell
  dataCells : List Cell
deriving DecidableEq, Repr

/-- Left-to-right search for the pattern `Team(?= Review)|Team Standings`:
at the first position where either alternative matches, the matched text is
split on spaces (the lookahead is not part of the match, so the first
alternative contributes just `["Team"]`). -/
def teamTokens : List Char → List String
  | [] => []
  | c :: cs =>
    if ("Team Review".toList).isPrefixOf (c :: cs) then ["Team"]
    else if ("Team Standings".toList).isPrefixOf (c :: cs) then ["Team", "Standings"]
    else teamTokens cs

/-- String-level wrapper for `teamTokens`; `[]` means no match. -/
def teamNameSearch (s : String) : List String :=
  teamTokens s.toList

/-- Largest position of `needle` in `cs` (as a prefix of the suffix starting
there), used to model a greedy `.+` before a literal. -/
def lastPosOf (needle : List Char) : List Char → Option Nat
  | [] => if needle.isEmpty then some 0 else none
  | c :: cs =>
    match lastPosOf needle cs with
    | some p => some (p + 1)
    | none => if needle.isPrefixOf (c :: cs) then some 0 else none

/-- Modelled from the spec: `STAT_TABLE_KEY_RE` lives in
`diamond_data_scraper/constants.py`, which is absent from the sources.  Per
§4.3 of the spec, a second header line matching a trailing "...Statistics"
phrase yields the captured phrase as the table kind; the predecessor code in
`scraper_logic.py` used `re.search(r"^.+Statistics", h1)`, i.e. the greedy
prefix of the header ending at the last occurrence of "Statistics" with at
least one preceding character. -/
def statKeySearch (s : String) : Option String :=
  match lastPosOf ("Statistics".toList) s.toList with
  | some p => if 1 ≤ p then some (String.mk (s.toList.take (p + 10))) else none
  | none => none

/-- Embedding of `Scraper.find_table_name_and_columns` (scraper.py lines
282–331).  The empty list models Python's `None` table name: a row with no
heading fragments, or whose fragments match none of the category patterns,
contributes nothing. -/
def find_table_name_and_columns (row : Row) : List String × Option Int :=
  if row.headers = [] then ([], none)
  else
    let num_cols := row.colspanAttr
    let h0 := row.headers.getD 0 ""
    let h1 := row.headers.getD 1 ""
    let is_player := h0 ≠ "" ∧ (strContains h0 "Player" ∨ strContains h0 "Pitcher")
    let n1 : List String := if is_player then ["Player"] else []
    let tm := if teamNameSearch h0 ≠ [] then teamNameSearch h0 else teamNameSearch h1
    let n2 := n1 ++ tm
    let n3 :=
      if 1 < row.headers.length then
        match statKeySearch h1 with
        | some k => n2 ++ [k]
        | none => n2
      else n2
    if n3 = [] then ([], none) else (n3, num_cols)

/-- The per-table scan state of `Scraper.get_data` (scraper.py lines 240–244). -/
structure TState where
  col_names : List String
  duplicate_rows : Carry
  table_name : List String
  col_num : Option Int
  data_list : List (List String)
deriving DecidableEq, Repr

/-- One iteration of the `for row in rows` loop of `Scraper.get_data`
(scraper.py lines 247–264), with the source's exact update order.  Note that
`find_cell_data` is invoked with the state from the previous rows, and that
its returned carry (never `None` in the source) unconditionally overwrites
`duplicate_rows` — including the map just derived from a banner row. -/
def scanRow (st : TState) (row : Row) : TState :=
  let tnc := find_table_name_and_columns row
  let fc := find_col_names row.bannerCells
  let cd := find_cell_data row.dataCells st.col_num st.duplicate_rows
  let table_name := if tnc.1 ≠ [] then tnc.1 else st.table_name
  let col_num :=
    match tnc.2 with
    | some n => if n ≠ 0 then some n else st.col_num
    | none => st.col_num
  let duplicate_rows :=
    match fc.2 with
    | some d => if d ≠ [] then d else st.duplicate_rows
    | none => st.duplicate_rows
  let col_names :=
    match fc.1 with
    | some cs => if cs ≠ [] then cs else st.col_names
    | none => st.col_names
  let duplicate_rows := cd.2
  let data_list :=
    match cd.1 with
    | some rd =>
      if rd ≠ [] ∧ col_names ≠ [] ∧ rd.length = col_names.length then
        st.data_list ++ [rd]
      else st.data_list
    | none => st.data_list
  ⟨col_names, duplicate_rows, table_name, col_num, data_list⟩

/-- Initial per-table scan state. -/
def initState : TState := ⟨[], [], [], none, []⟩

/-- Scan of all the rows of one boxed table. -/
def runTable (rows : List Row) : TState :=
  rows.foldl scanRow initState

/-- The `list_of_dicts` built at the end of one table's scan (scraper.py line
267): each kept data row is zipped with the final column names. -/
def tableRecords (st : TState) : List Rec :=
  st.data_list.map (fun r => dictOfZip st.col_names (r.map Val.str))

/-- Emission test of one table (scraper.py line 266). -/
def tableEmitted (st : TState) : Prop :=
  st.table_name ≠ [] ∧ st.col_names ≠ [] ∧ st.data_list ≠ []

/-- Processing of one boxed table inside `Scraper.get_data` (scraper.py lines
239–278): a table is filed under the last component of its name in the player
or team dict when it has a name, column names and kept rows. -/
def getDataStep (pt : List (String × List Rec) × List (String × List Rec))
    (rows : List Row) : List (String × List Rec) × List (String × List Rec) :=
  let st := runTable rows
  if st.table_name ≠ [] ∧ st.col_names ≠ [] ∧ st.data_list ≠ [] then
    if st.table_name.headD "" = "Player" then
      (assocSet pt.1 (st.table_name.getLastD "") (tableRecords st), pt.2)
    else if st.table_name.headD "" = "Team" then
      (pt.1, assocSet pt.2 (st.table_name.getLastD "") (tableRecords st))
    else pt
  else pt

/-- Embedding of `Scraper.get_data` (scraper.py lines 225–280) over the boxed
tables of one page: returns the `player_stats_dict` and `team_stats_dict`,
keyed by the last component of the table name. -/
def get_data (tables : List (List Row)) :
    List (String × List Rec) × List (String × List Rec) :=
  tables.foldl getDataStep ([], [])

/-! ### Link collector (`get_year_links`) and page header parser (`get_year_league`) -/

/-- Numeric value of a decimal digit character. -/
def digitVal (c : Char) : Nat := c.toNat - 48

/-- Value of a four-digit year. -/
def yearVal (d1 d2 d3 d4 : Char) : Nat :=
  digitVal d1 * 1000 + digitVal d2 * 100 + digitVal d3 * 10 + digitVal d4

/-- Modelled from the spec: `YEARLY_LINK_RE` lives in
`diamond_data_scraper/constants.py`, which is absent from the sources.  Per
§4.1 of the spec it is the fixed trailing-path pattern
`yr<YYYY><a|n>.shtml` (the predecessor code used
`re.search(r"yr\d{4}(a|n)\.shtml$", href)`); with the end anchor the match is
exactly the last thirteen characters of the href, yielding the year and the
one-letter league code. -/
def parseYearlyLink (href : String) : Option (Nat × Char) :=
  let cs := href.toList
  if cs.length < 13 then none
  else
    match cs.drop (cs.length - 13) with
    | 'y' :: 'r' :: d1 :: d2 :: d3 :: d4 :: c :: rest =>
      if d1.isDigit && d2.isDigit && d3.isDigit && d4.isDigit &&
         (c == 'a' || c == 'n') && rest == ".shtml".toList then
        some (yearVal d1 d2 d3 d4, c)
      else none
    | _ => none

/-- The keep test of one href inside `Scraper.get_year_links`: the href must
match the yearly-link pattern, its league code must pass the requested filter
(`want = none` keeps both codes), and an `a`-coded link with a year before
1901 is dropped regardless of the filter. -/
def yearLinkKept (want : Option Char) (href : String) : Bool :=
  match parseYearlyLink href with
  | none => false
  | some yc =>
    (match want with
     | some w => yc.2 == w
     | none => true) &&
    !(yc.2 == 'a' && decide (yc.1 < 1901))

/-- Embedding of `Scraper.get_year_links` (scraper.py lines 114–160) over the
href strings of the year-menu anchors: the kept hrefs, in source order. -/
def get_year_links (hrefs : List String) (league : String) : List String :=
  let want : Option Char :=
    if league = "AL" then some 'a'
    else if league = "NL" then some 'n'
    else none
  hrefs.filter (yearLinkKept want)

/-- Case-insensitive strip of an upper-case literal from the front of a
character list, returning the remainder on success. -/
def stripCI : List Char → List Char → Option (List Char)
  | [], cs => some cs
  | _ :: _, [] => none
  | p :: ps, c :: cs => if c.toUpper = p then stripCI ps cs else none

/-- Match of the league part `(AMERICAN|NATIONAL)\sLEAGUE` (case-insensitive,
as §4.2 of the spec states), returning the title-cased league token. -/
def matchLeague (cs : List Char) : Option String :=
  match stripCI ("AMERICAN".toList) cs with
  | some r =>
    match r with
    | w :: r2 =>
      if w.isWhitespace then
        match stripCI ("LEAGUE".toList) r2 with
        | some _ => some "American"
        | none => none
      else none
    | [] => none
  | none =>
    match stripCI ("NATIONAL".toList) cs with
    | some r =>
      match r with
      | w :: r2 =>
        if w.isWhitespace then
          match stripCI ("LEAGUE".toList) r2 with
          | some _ => some "National"
          | none => none
        else none
      | [] => none
    | none => none

/-- Match of the full header pattern at one position: a four-digit year, one
whitespace character, then the league part. -/
def matchYLAt (cs : List Char) : Option (Nat × String) :=
  match cs with
  | d1 :: d2 :: d3 :: d4 :: w :: rest =>
    if d1.isDigit && d2.isDigit && d3.isDigit && d4.isDigit && w.isWhitespace then
      match matchLeague rest with
      | some lg => some (yearVal d1 d2 d3 d4, lg)
      | none => none
    else none
  | _ => none

/-- Left-to-right search for the header pattern (first match wins). -/
def searchYL : List Char → Option (Nat × String)
  | [] => none
  | c :: cs =>
    match matchYLAt (c :: cs) with
    | some r => some r
    | none => searchYL cs

/-- Modelled from the spec: `YEAR_LEAGUE_HEADER_RE` lives in
`diamond_data_scraper/constants.py`, which is absent from the sources.  Per
§4.2 of the spec the heading text is searched for a four-digit year and a
league token matching "AMERICAN" or "NATIONAL" (case-insensitive) followed by
"LEAGUE" (the predecessor code used
`re.search(r"\d{4}\s(AMERICAN|NATIONAL)\sLEAGUE", text)`); the league group is
returned title-cased, as `.title()` produces. -/
def parseYearLeagueHeader (s : String) : Option (Nat × String) :=
  searchYL s.toList

/-- Embedding of `Scraper.get_year_league` (scraper.py lines 201–222).  The
argument is the text of the `div.intro > h1` element, `none` when the element
is absent (the source catches the lookup failure).  A non-matching header
yields `(none, none)`, and a matching American League header before 1901 is
rejected by the final guard. -/
def get_year_league (header : Option String) : Option Nat × Option String :=
  match header with
  | none => (none, none)
  | some h =>
    match parseYearLeagueHeader h with
    | none => (none, none)
    | some yl =>
      let league := yl.2 ++ " League"
      if league = "American League" ∧ yl.1 < 1901 then (none, none)
      else (some yl.1, some league)

/-- Embedding of the link-limit handling of `Scraper.scrape` (scraper.py lines
79–111).  The result is the list of links the run goes on to scrape and
convert into output tables; `none` models the early `return` taken for a
non-positive `limit_years` (a warning is logged, nothing is scraped, and the
conversion and CSV-writing steps are never reached). -/
def scrape_link_selection (links : List String) (limit_years : Option Int) :
    Option (List String) :=
  match limit_years with
  | none => some links
  | some n => if n ≤ 0 then none else some (links.take n.toNat)

/-! ### Standings schema normalization and column ordering -/

/-- Embedding of `Scraper.normalize_standings_row` (scraper.py lines 446–480)
on the value of the record; `out = dict(items)` is a copy, so the function is
a pure record transformer (the aliasing side of the copy is treated by the
heap model below).  Each alias branch fires only under the guard the source
checks: a popped key is removed and the canonical key is written (appended
when absent), `setdefault` inserts only when the key is absent. -/
def normalize_standings_row (items : Rec) : Rec :=
  if items = [] then items
  else
    let out := items
    let out :=
      match dictLookup out "Team [Click for roster]", dictHasKey out "Team" with
      | some v, false => assocSet (dictRemove out "Team [Click for roster]") "Team" v
      | _, _ => out
    let out :=
      match dictLookup out "Team | Roster" with
      | some v =>
        let o := dictRemove out "Team | Roster"
        let o := dictSetdefault o "Team" v
        dictSetdefault o "Roster" (Val.str "")
      | none => out
    let out :=
      match dictLookup out "Wins", dictHasKey out "W" with
      | some v, false => assocSet (dictRemove out "Wins") "W" v
      | _, _ => out
    let out :=
      match dictLookup out "Losses", dictHasKey out "L" with
      | some v, false => assocSet (dictRemove out "Losses") "L" v
      | _, _ => out
    out

/-- Column list of `pd.DataFrame(list_of_dicts)`: the union of the records'
keys in first-seen order. -/
def firstSeenColumns (tbl : List Rec) : List String :=
  tbl.foldl
    (fun cols r =>
      r.foldl (fun cols kv => if kv.1 ∈ cols then cols else cols ++ [kv.1]) cols)
    []

/-- The target column order of `Scraper.reorder_standing_columns`. -/
def desiredOrder : List String :=
  ["Team", "W", "L", "WP", "GB", "T", "Year", "League"]

/-- Embedding of `Scraper.reorder_standing_columns` (scraper.py lines 482–503)
at the level of the frame's column list: an empty frame is returned as is, a
`Roster` column is dropped, then the desired columns that are present come
first in the desired order, followed by the remaining columns in their
original order. -/
def reorder_standing_columns (cols : List String) : List String :=
  if cols = [] then cols
  else
    let cols2 := cols.filter (fun c => c ≠ "Roster")
    let ordered := desiredOrder.filter (fun c => c ∈ cols2)
    let remaining := cols2.filter (fun c => c ∉ ordered)
    ordered ++ remaining

/-! ### Aggregation (`add_to_table` / `convert_stats_to_df`) over an explicit store

Python records are heap-allocated dictionaries and the accumulators hold
references to them; to make the claims about aliasing and non-mutation
expressible, the conversion is embedded over an explicit store of records.
The accumulators hold store indices; `dict(items)` in the source becomes the
allocation of a fresh cell holding the transformed copy, and the original
cells are never written. -/

/-- The record store: each index is one Python dict object. -/
abbrev Heap := List Rec

/-- Read a store cell. -/
def readH (h : Heap) (i : Nat) : Rec := h.getD i []

/-- The Year/League stamping of `Scraper.add_to_table` on the copied record. -/
def stampRec (items : Rec) (year : Int) (league : String) : Rec :=
  assocSet (assocSet items "Year" (Val.num year)) "League" (Val.str league)

/-- Embedding of `Scraper.add_to_table` (scraper.py lines 505–513): an empty
record is skipped; otherwise `stats = dict(items)` allocates a fresh cell with
the stamped copy and the stamped record is appended to the output table. -/
def add_to_table (h : Heap) (table : List Rec) (itemsRef : Nat)
    (year : Int) (league : String) : Heap × List Rec :=
  let items := readH h itemsRef
  if items = [] then (h, table)
  else
    let stats := stampRec items year league
    (h ++ [stats], table ++ [stats])

/-- Heap-level wrapper of `normalize_standings_row`: an empty record is
returned as the same object, otherwise `out = dict(items)` allocates a fresh
cell holding the normalized copy and its reference is returned. -/
def normalize_standings_on_heap (h : Heap) (itemsRef : Nat) : Heap × Nat :=
  let items := readH h itemsRef
  if items = [] then (h, itemsRef)
  else (h ++ [normalize_standings_row items], h.length)

/-- The `for items in data.get(kind, [])` loop of `convert_stats_to_df` for
the hitting/pitching tables. -/
def addAll (h : Heap) (table : List Rec) (refs : List Nat)
    (year : Int) (league : String) : Heap × List Rec :=
  refs.foldl (fun p r => add_to_table p.1 p.2 r year league) (h, table)

/-- The standings loop of `convert_stats_to_df`: each record is normalized
(onto a fresh cell) and the normalized record is stamped and appended. -/
def addAllStandings (h : Heap) (table : List Rec) (refs : List Nat)
    (year : Int) (league : String) : Heap × List Rec :=
  refs.foldl
    (fun p r =>
      let q := normalize_standings_on_heap p.1 r
      add_to_table q.1 p.2 q.2 year league)
    (h, table)

/-- One page's tables inside the accumulator: kind ↦ references of its
records in the store. -/
abbrev PageData := List (String × List Nat)

/-- The nested accumulator: year ↦ league ↦ kind ↦ record references. -/
abbrev Acc := List (Int × List (String × PageData))

/-- State of `convert_stats_to_df`: the store and the three flat tables. -/
structure ConvOut where
  heap : Heap
  hit : List Rec
  pitch : List Rec
  standing : List Rec
deriving DecidableEq, Repr

/-- The body of the `for league, data in leagues.items()` loop of
`convert_stats_to_df` (scraper.py lines 432–439). -/
def convertPage (s : ConvOut) (year : Int) (league : String) (data : PageData) :
    ConvOut :=
  let p1 := addAll s.heap s.hit (dictGetD data "Hitting Statistics" []) year league
  let p2 := addAll p1.1 s.pitch (dictGetD data "Pitching Statistics" []) year league
  let p3 := addAllStandings p2.1 s.standing (dictGetD data "Standings" []) year league
  ⟨p3.1, p1.2, p2.2, p3.2⟩

/-- Embedding of `Scraper.convert_stats_to_df` (scraper.py lines 418–444) up
to the construction of the three record lists (the DataFrame construction and
the standings column reordering are covered by `firstSeenColumns` and
`reorder_standing_columns`). -/
def convert_stats_to_df (h : Heap) (acc : Acc) : ConvOut :=
  acc.foldl
    (fun s yl => yl.2.foldl (fun s ld => convertPage s yl.1 ld.1 ld.2) s)
    ⟨h, [], [], []⟩

/-- All record references of one page. -/
def pageRefs (data : PageData) : List Nat :=
  data.flatMap (fun kr => kr.2)

/-- All record references reachable from the accumulator. -/
def accRefs (acc : Acc) : List Nat :=
  acc.flatMap (fun yl => yl.2.flatMap (fun ld => pageRefs ld.2))

/-- Value-level flattening of one kind of the accumulator: the records of
that kind together with the year and league they were filed under. -/
def flatRecs (h : Heap) (acc : Acc) (kind : String) : List (Int × String × Rec) :=
  acc.flatMap (fun yl =>
    yl.2.flatMap (fun ld =>
      (dictGetD ld.2 kind []).map (fun ref => (yl.1, ld.1, readH h ref))))

/-! ### Concrete inputs used by counterexamples and witnesses -/

/-- The filter predicate the claim about `get_year_links` describes: which
league codes the requested filter admits. -/
def filterPasses (league : String) (c : Char) : Prop :=
  if league = "AL" then c = 'a'
  else if league = "NL" then c = 'n'
  else True

/-- The league-code wanted by `get_year_links` for a league filter string. -/
def leagueWant (league : String) : Option Char :=
  if league = "AL" then some 'a'
  else if league = "NL" then some 'n'
  else none

/-- Banner-derived column names of a row (the first component of
`find_col_names`). -/
def bannerNames (row : Row) : Option (List String) :=
  (find_col_names row.bannerCells).1

/-- A row scan whose banner rows all agree on one column list `C`. -/
def bannerConsistent (rows : List Row) (C : List String) : Prop :=
  ∀ row ∈ rows, bannerNames row = none ∨ bannerNames row = some C

/-- Strip the `rowspan` attributes from the banner cells of a row. -/
def stripBannerRowspans (row : Row) : Row :=
  { row with bannerCells := row.bannerCells.map (fun c => ⟨c.text, none⟩) }

/-- Successive `find_cell_data` calls over the data rows of a table, with the
carry threaded exactly as `get_data` threads it (the returned carry always
replaces the previous one). -/
def stepRows (num_cols : Option Int) (carry : Carry) :
    List (List Cell) → List (Option (List String)) × Carry
  | [] => ([], carry)
  | r :: rs =>
    let dc := find_cell_data r num_cols carry
    let rest := stepRows num_cols dc.2 rs
    (dc.1 :: rest.1, rest.2)

/-- A table whose banner row declares `rowspan=2` on its first column and
whose single data row is short by one cell: the input on which the claimed
banner-rowspan reinsertion is tested. -/
def bannerCarryTable : List Row :=
  [⟨["Team Standings"], some 3, [], []⟩,
   ⟨[], none, [⟨"Team", some 2⟩, ⟨"W", none⟩, ⟨"L", none⟩], []⟩,
   ⟨[], none, [], [⟨"95", none⟩, ⟨"59", none⟩]⟩]

/-- A table with two banner rows of different widths: its first data row
matches the first banner (two columns) and its second matches the second
banner (three columns), so the first assembled record is narrower than the
final column set. -/
def twoBannerTable : List Row :=
  [⟨["Team Standings"], some 2, [], []⟩,
   ⟨[], none, [⟨"A", none⟩, ⟨"B", none⟩], []⟩,
   ⟨[], none, [], [⟨"1", none⟩, ⟨"2", none⟩]⟩,
   ⟨[], none, [⟨"A", none⟩, ⟨"B", none⟩, ⟨"C", none⟩], []⟩,
   ⟨[], none, [], [⟨"3", none⟩, ⟨"4", none⟩, ⟨"5", none⟩]⟩]

/-- The standings record of the normalization scenario. -/
def redSoxRec : Rec :=
  [("Team", Val.str "Red Sox"), ("Wins", Val.str "95"), ("Losses", Val.str "59")]

/-- A well-formed single-banner table with one data row. -/
def singleBannerTable : List Row :=
  [⟨["Team Standings"], some 2, [], []⟩,
   ⟨[], none, [⟨"A", none⟩, ⟨"B", none⟩], []⟩,
   ⟨[], none, [], [⟨"1", none⟩, ⟨"2", none⟩]⟩]

/-- A one-record store for the aggregation examples. -/
def exHeap : Heap := [[("Team", Val.str "Red Sox"), ("Wins", Val.str "95")]]

/-- A one-page accumulator referencing the single stored record as both a
hitting record and a standings record. -/
def exAcc : Acc :=
  [(1905, [("American League",
    [("Hitting Statistics", [0]), ("Standings", [0])])])]

/-! ## Theorems -/

/-- Absent keys are not found. -/
theorem dictLookup_eq_none {α : Type} (d : List (String × α)) (k : String)
    (h : dictHasKey d k = false) : dictLookup d k = none := by
  unfold dictLookup
  have : d.find? (fun p => p.1 = k) = none := by
    rw [List.find?_eq_none]
    intro p hp
    have := (List.any_eq_false).mp h p hp
    simpa using this
  simp [this]

/-- When the four alias keys are absent, `normalize_standings_row` is the
identity. -/
theorem normalize_canonical_id (r : Rec)
    (h1 : dictHasKey r "Team [Click for roster]" = false)
    (h2 : dictHasKey r "Team | Roster" = false)
    (h3 : dictHasKey r "Wins" = false)
    (h4 : dictHasKey r "Losses" = false) :
    normalize_standings_row r = r := by
  unfold normalize_standings_row
  dsimp only
  rw [dictLookup_eq_none r _ h1, dictLookup_eq_none r _ h2,
      dictLookup_eq_none r _ h3, dictLookup_eq_none r _ h4]
  by_cases hr : r = [] <;> simp [hr]

/-- C8: the Schema Normalizer is idempotent on canonical standings records:
for every record containing none of the alias keys "Team [Click for roster]",
"Team | Roster", "Wins", "Losses", applying `normalize_standings_row` twice
yields the same record as applying it once. -/
theorem c8_normalize_idempotent_on_canonical (r : Rec)
    (h1 : dictHasKey r "Team [Click for roster]" = false)
    (h2 : dictHasKey r "Team | Roster" = false)
    (h3 : dictHasKey r "Wins" = false)
    (h4 : dictHasKey r "Losses" = false) :
    normalize_standings_row (normalize_standings_row r) = normalize_standings_row r := by
  have h := normalize_canonical_id r h1 h2 h3 h4
  rw [h, h]

/-- Witness for C8 at a concrete canonical record. -/
theorem c8_witness :
    (dictHasKey [("Team", Val.str "Red Sox"), ("W", Val.str "95")] "Team [Click for roster]" = false
      ∧ dictHasKey [("Team", Val.str "Red Sox"), ("W", Val.str "95")] "Team | Roster" = false
      ∧ dictHasKey [("Team", Val.str "Red Sox"), ("W", Val.str "95")] "Wins" = false
      ∧ dictHasKey [("Team", Val.str "Red Sox"), ("W", Val.str "95")] "Losses" = false)
    ∧ normalize_standings_row (normalize_standings_row
        [("Team", Val.str "Red Sox"), ("W", Val.str "95")])
      = normalize_standings_row [("Team", Val.str "Red Sox"), ("W", Val.str "95")] :=
  ⟨⟨by decide, by decide, by decide, by decide⟩,
   c8_normalize_idempotent_on_canonical _ (by decide) (by decide) (by decide) (by decide)⟩

/-- Counterexample for C4: with a non-positive limit (here 0 on a one-link
list) the run returns before the conversion and CSV-writing steps, so it does
not end with empty output tables — it produces no output tables at all
(`scrape_link_selection` yields `none`, the early-return outcome, rather than
`some` of an empty scrape that would still emit the five tables). -/
theorem c4_counterexample :
    scrape_link_selection ["yr1905a.shtml"] (some 0) = none
    ∧ (scrape_link_selection ["yr1905a.shtml"] (some 0)).isSome = false := by
  exact ⟨rfl, rfl⟩

/-- C4 (amended): a non-positive link-count limit makes the run log a warning
and return early — nothing is scraped and no output tables are written (the
accumulators stay empty, and converting an empty accumulator would yield empty
tables); a positive limit N truncates the link list to its first N entries,
and an absent limit keeps the whole list. -/
theorem c4_limit_handling (links : List String) (n : Int) :
    (n ≤ 0 → scrape_link_selection links (some n) = none)
    ∧ (0 < n → scrape_link_selection links (some n) = some (links.take n.toNat))
    ∧ scrape_link_selection links none = some links
    ∧ (∀ h : Heap, (convert_stats_to_df h []).hit = []
        ∧ (convert_stats_to_df h []).pitch = []
        ∧ (convert_stats_to_df h []).standing = []) := by
  refine ⟨?_, ?_, rfl, ?_⟩
  · intro hn
    simp [scrape_link_selection, hn]
  · intro hn
    have : ¬ n ≤ 0 := not_le.mpr hn
    simp [scrape_link_selection, this]
  · intro h
    exact ⟨rfl, rfl, rfl⟩

/-- Witness for C4 at concrete inputs. -/
theorem c4_witness :
    ((0 : Int) ≤ 0 ∧ scrape_link_selection ["a", "b"] (some 0) = none)
    ∧ ((0 : Int) < 1 ∧ scrape_link_selection ["a", "b"] (some 1) = some ["a"]) :=
  ⟨⟨by decide, (c4_limit_handling ["a", "b"] 0).1 (by decide)⟩,
   ⟨by decide, (c4_limit_handling ["a", "b"] 1).2.1 (by decide)⟩⟩

/-- C5: the page header parser is total and fails closed — an absent heading
or one not matching the year-plus-league pattern yields `(none, none)`; the
header "1905 AMERICAN LEAGUE" yields year 1905 and league "American League";
and any matching header whose league token is AMERICAN with a year before 1901
is rejected by the final guard.  (The parser is a total Lean function, so it
cannot raise.) -/
theorem c5_get_year_league_safe :
    get_year_league none = (none, none)
    ∧ (∀ h, parseYearLeagueHeader h = none → get_year_league (some h) = (none, none))
    ∧ get_year_league (some "1905 AMERICAN LEAGUE") = (some 1905, some "American League")
    ∧ (∀ h y, parseYearLeagueHeader h = some (y, "American") → y < 1901 →
        get_year_league (some h) = (none, none)) := by
  refine ⟨rfl, ?_, by decide, ?_⟩
  · intro h hp
    simp [get_year_league, hp]
  · intro h y hp hy
    have happ : ("American" ++ " League" : String) = "American League" := rfl
    simp [get_year_league, hp, happ, hy]

/-- Witness for C5 at the pre-1901 American League header. -/
theorem c5_witness :
    (parseYearLeagueHeader "1890 AMERICAN LEAGUE" = some (1890, "American")
      ∧ 1890 < 1901)
    ∧ get_year_league (some "1890 AMERICAN LEAGUE") = (none, none) :=
  ⟨⟨by decide, by decide⟩,
   c5_get_year_league_safe.2.2.2 "1890 AMERICAN LEAGUE" 1890 (by decide) (by decide)⟩

/-- The link collector is the filter of the kept-predicate over the hrefs. -/
theorem get_year_links_eq_filter (hrefs : List String) (league : String) :
    get_year_links hrefs league = hrefs.filter (yearLinkKept (leagueWant league)) := rfl

/-- C6: every href matching the yearly-link pattern with league code `a` and
a year before 1901 is excluded from the collector's output whatever the
requested filter; every other matching href is kept iff its league code passes
the filter (AL keeps `a`, NL keeps `n`, BOTH keeps both); non-matching hrefs
are dropped; and the output preserves the source order (it is a sublist of
the input). -/
theorem c6_year_links_filter :
    (∀ hrefs league href y, parseYearlyLink href = some (y, 'a') → y < 1901 →
        href ∉ get_year_links hrefs league)
    ∧ (∀ hrefs league href y c,
        league = "AL" ∨ league = "NL" ∨ league = "BOTH" →
        parseYearlyLink href = some (y, c) → ¬(c = 'a' ∧ y < 1901) →
        (href ∈ get_year_links hrefs league ↔ href ∈ hrefs ∧ filterPasses league c))
    ∧ (∀ hrefs league href, parseYearlyLink href = none →
        href ∉ get_year_links hrefs league)
    ∧ (∀ hrefs league, (get_year_links hrefs league).Sublist hrefs) := by
  refine ⟨?_, ?_, ?_, ?_⟩
  · intro hrefs league href y hp hy hmem
    rw [get_year_links_eq_filter, List.mem_filter] at hmem
    have hk := hmem.2
    simp [yearLinkKept, hp, hy] at hk
  · intro hrefs league href y c hleague hp hnot
    rw [get_year_links_eq_filter, List.mem_filter]
    have hylt : c = 'a' → ¬ (y < 1901) := fun hc hlt => hnot ⟨hc, hlt⟩
    have hkeep : yearLinkKept (leagueWant league) href = true ↔ filterPasses league c := by
      rcases hleague with h | h | h <;> subst h <;> by_cases hc : c = 'a'
      all_goals
        first
        | (subst hc
           have hny : ¬ (y < 1901) := hylt rfl
           simp [yearLinkKept, hp, leagueWant, filterPasses, hny]
           try decide)
        | (simp [yearLinkKept, hp, leagueWant, filterPasses, hc]
           try decide)
    constructor
    · intro hm
      exact ⟨hm.1, hkeep.mp hm.2⟩
    · intro hm
      exact ⟨hm.1, hkeep.mpr hm.2⟩
  · intro hrefs league href hp hmem
    rw [get_year_links_eq_filter, List.mem_filter] at hmem
    have hk := hmem.2
    simp [yearLinkKept, hp] at hk
  · intro hrefs league
    rw [get_year_links_eq_filter]
    exact List.filter_sublist hrefs

/-- Witness for C6 at concrete hrefs. -/
theorem c6_witness :
    (parseYearlyLink "yr1890a.shtml" = some (1890, 'a') ∧ 1890 < 1901
      ∧ "yr1890a.shtml" ∉ get_year_links ["yr1890a.shtml", "yr1905n.shtml"] "BOTH")
    ∧ ("yr1905n.shtml" ∈ get_year_links ["yr1890a.shtml", "yr1905n.shtml"] "BOTH"
        ↔ "yr1905n.shtml" ∈ ["yr1890a.shtml", "yr1905n.shtml"] ∧ filterPasses "BOTH" 'n') :=
  ⟨⟨by decide, by decide,
    c6_year_links_filter.1 ["yr1890a.shtml", "yr1905n.shtml"] "BOTH" "yr1890a.shtml" 1890
      (by decide) (by decide)⟩,
   c6_year_links_filter.2.1 ["yr1890a.shtml", "yr1905n.shtml"] "BOTH" "yr1905n.shtml" 1905 'n'
     (Or.inr (Or.inr rfl)) (by decide) (by decide)⟩

/-- Characterization of the standings column reordering: the desired columns
that occur (Roster aside) come first, in the desired order, followed by the
remaining non-Roster columns in their original order. -/
theorem reorder_standing_columns_eq (cols : List String) :
    reorder_standing_columns cols
      = desiredOrder.filter (fun c => decide (c ∈ cols ∧ c ≠ "Roster"))
        ++ cols.filter (fun c => decide (c ≠ "Roster" ∧ c ∉ desiredOrder)) := by
  by_cases hc : cols = []
  · subst hc
    decide
  · unfold reorder_standing_columns
    rw [if_neg hc]
    dsimp only
    congr 1
    · apply List.filter_congr
      intro c hcmem
      rw [decide_eq_decide]
      simp [List.mem_filter]
    · rw [List.filter_filter]
      apply List.filter_congr
      intro c hcmem
      by_cases hr : c = "Roster"
      · subst hr
        simp
      · by_cases hd : c ∈ desiredOrder <;>
          simp [List.mem_filter, hr, hd, hcmem]

/-- C7: the scenario record `{Team: "Red Sox", Wins: "95", Losses: "59"}`
normalizes to `{Team: "Red Sox", W: "95", L: "59"}` with no "Wins", "Losses"
or "Roster" key remaining, and the flat standings table's column order is
Team, W, L, WP, GB, T, Year, League followed by the remaining first-seen
columns, with any "Roster" column dropped before ordering. -/
theorem c7_standings_normalization :
    (normalize_standings_row redSoxRec
        = [("Team", Val.str "Red Sox"), ("W", Val.str "95"), ("L", Val.str "59")]
      ∧ dictHasKey (normalize_standings_row redSoxRec) "Wins" = false
      ∧ dictHasKey (normalize_standings_row redSoxRec) "Losses" = false
      ∧ dictHasKey (normalize_standings_row redSoxRec) "Roster" = false)
    ∧ (∀ tbl : List Rec,
        reorder_standing_columns (firstSeenColumns tbl)
          = desiredOrder.filter (fun c => decide (c ∈ firstSeenColumns tbl ∧ c ≠ "Roster"))
            ++ (firstSeenColumns tbl).filter
                (fun c => decide (c ≠ "Roster" ∧ c ∉ desiredOrder))
        ∧ "Roster" ∉ reorder_standing_columns (firstSeenColumns tbl)) := by
  constructor
  · exact ⟨by decide, by decide, by decide, by decide⟩
  · intro tbl
    refine ⟨reorder_standing_columns_eq _, ?_⟩
    intro hmem
    rw [reorder_standing_columns_eq] at hmem
    rcases List.mem_append.mp hmem with hm | hm
    · have := (List.mem_filter.mp hm).2
      simp at this
    · have := (List.mem_filter.mp hm).2
      simp at this

/-- Setting a carry entry makes it the value found for that index. -/
theorem carryLookup_carrySet_self (c : Carry) (i : Nat) (v : String × Int) :
    carryLookup (carrySet c i v) i = some v := by
  unfold carrySet carryLookup
  by_cases hany : c.any (fun e => e.1 = i) = true
  · rw [if_pos hany, List.find?_map]
    have hpf : ((fun (e : Nat × String × Int) => decide (e.1 = i))
        ∘ (fun e => if e.1 = i then (i, v) else e))
        = (fun (e : Nat × String × Int) => decide (e.1 = i)) := by
      funext x
      by_cases hx : x.1 = i <;> simp [hx]
    rw [hpf]
    have hsome : (c.find? (fun e => decide (e.1 = i))).isSome := by
      rw [List.find?_isSome]
      obtain ⟨x, hx, hpx⟩ := List.any_eq_true.mp hany
      exact ⟨x, hx, hpx⟩
    obtain ⟨e, he⟩ := Option.isSome_iff_exists.mp hsome
    have hei : e.1 = i := by simpa using List.find?_some he
    rw [he]
    simp [hei]
  · rw [if_neg hany, List.find?_append]
    have hnone : c.find? (fun e => decide (e.1 = i)) = none := by
      rw [List.find?_eq_none]
      intro x hx
      have := List.any_eq_false.mp (Bool.not_eq_true _ ▸ hany) x hx
      simpa using this
    rw [hnone]
    simp

/-- Setting a carry entry leaves the lookup of other indices unchanged. -/
theorem carryLookup_carrySet_other (c : Carry) (i j : Nat) (v : String × Int)
    (hij : j ≠ i) : carryLookup (carrySet c i v) j = carryLookup c j := by
  unfold carrySet carryLookup
  by_cases hany : c.any (fun e => e.1 = i) = true
  · rw [if_pos hany, List.find?_map]
    have hpf : ((fun (e : Nat × String × Int) => decide (e.1 = j))
        ∘ (fun e => if e.1 = i then (i, v) else e))
        = (fun (e : Nat × String × Int) => decide (e.1 = j)) := by
      funext x
      by_cases hx : x.1 = i <;> simp [hx, Ne.symm hij]
    rw [hpf]
    cases hfind : c.find? (fun e => decide (e.1 = j)) with
    | none => simp
    | some e =>
      have hej : e.1 = j := by simpa using List.find?_some hfind
      have hei : ¬ (e.1 = i) := by rw [hej]; exact hij
      simp [hei]
  · rw [if_neg hany, List.find?_append]
    cases hfind : c.find? (fun e => decide (e.1 = j)) with
    | none => simp [Ne.symm hij]
    | some e => simp

/-- The cell loop never disturbs carry entries at indices below its starting
index. -/
theorem carryLookup_cellLoop_lt (cells : List Cell) (idx : Nat) (d : List String)
    (cr : Carry) (i : Nat) (hi : i < idx) :
    carryLookup (cellLoop idx d cr cells).2 i = carryLookup cr i := by
  induction cells generalizing idx d cr with
  | nil => rfl
  | cons c cs ih =>
    cases hrs : c.rowspan with
    | none =>
      simp only [cellLoop, hrs]
      exact ih (idx + 1) _ _ (by omega)
    | some n =>
      simp only [cellLoop, hrs]
      rw [ih (idx + 1) _ _ (by omega)]
      exact carryLookup_carrySet_other cr idx i (c.text, n) (by omega)

/-- The cell loop records the rowspan of the cell at relative position `j`
under the absolute index `idx + j`. -/
theorem carryLookup_cellLoop_get (cells : List Cell) (idx : Nat) (d : List String)
    (cr : Carry) (j : Nat) (c : Cell) (N : Int)
    (hget : cells.get? j = some c) (hrs : c.rowspan = some N) :
    carryLookup (cellLoop idx d cr cells).2 (idx + j) = some (c.text, N) := by
  induction cells generalizing idx d cr j with
  | nil => cases hget
  | cons c0 cs ih =>
    cases j with
    | zero =>
      have hc0 : c0 = c := by simpa using hget
      subst hc0
      simp only [cellLoop, hrs, Nat.add_zero]
      rw [carryLookup_cellLoop_lt cs (idx + 1) _ _ idx (by omega)]
      exact carryLookup_carrySet_self cr idx (c0.text, N)
    | succ j2 =>
      have hget2 : cs.get? j2 = some c := by simpa using hget
      have harith : idx + (j2 + 1) = (idx + 1) + j2 := by omega
      cases hrs0 : c0.rowspan with
      | none =>
        simp only [cellLoop, hrs0, harith]
        exact ih (idx + 1) _ _ j2 hget2
      | some n0 =>
        simp only [cellLoop, hrs0, harith]
        exact ih (idx + 1) _ _ j2 hget2

/-- On a row without rowspan attributes the cell loop only appends the
stripped texts, leaving the carry unchanged. -/
theorem cellLoop_no_rowspan (cells : List Cell) (idx : Nat) (d : List String)
    (cr : Carry) (h : ∀ c ∈ cells, c.rowspan = none) :
    cellLoop idx d cr cells = (d ++ cells.map (fun c => pyStrip c.text), cr) := by
  induction cells generalizing idx d with
  | nil => simp [cellLoop]
  | cons c cs ih =>
    have hc : c.rowspan = none := h c (by simp)
    have hcs : ∀ x ∈ cs, x.rowspan = none := fun x hx => h x (by simp [hx])
    simp only [cellLoop, hc]
    rw [ih (idx + 1) (d ++ [pyStrip c.text]) hcs]
    simp

/-- A short, rowspan-free data row against a single-entry carry: the carried
text is reinserted at its recorded index, the remaining count is decremented,
and the entry survives exactly when the decremented count is still positive. -/
theorem find_cell_data_short (cs : List Cell) (m : Int) (i : Nat) (t : String) (n : Int)
    (hne : cs ≠ []) (hnors : ∀ x ∈ cs, x.rowspan = none)
    (hlen : (cs.length : Int) ≠ m) :
    find_cell_data cs (some m) [(i, t, n)]
      = (some (pyInsert (cs.map (fun x => pyStrip x.text)) i t),
         if n - 1 > 0 then [(i, t, n - 1)] else []) := by
  unfold find_cell_data
  rw [if_neg hne]
  dsimp only
  rw [cellLoop_no_rowspan cs 0 [] _ hnors]
  have hlen2 : (((([] : List String) ++ cs.map (fun x => pyStrip x.text)).length : Int)) ≠ m := by
    simpa using hlen
  simp only [List.nil_append]
  rw [if_pos (by simpa using hlen2)]
  dsimp only [List.foldl, List.map]
  by_cases hn : n - 1 > 0 <;> simp [hn]

/-- The data component of the cell loop is the stripped texts, independently
of the carry. -/
theorem cellLoop_fst (cells : List Cell) (idx : Nat) (d : List String) (cr : Carry) :
    (cellLoop idx d cr cells).1 = d ++ cells.map (fun c => pyStrip c.text) := by
  induction cells generalizing idx d cr with
  | nil => simp [cellLoop]
  | cons c cs ih =>
    cases hrs : c.rowspan with
    | none =>
      simp only [cellLoop, hrs]
      rw [ih]
      simp
    | some n =>
      simp only [cellLoop, hrs]
      rw [ih]
      simp

/-- An entry found by `find?` and kept by a filter is still the one found in
the filtered list. -/
theorem find?_filter_keep {α : Type} (l : List α) (p q : α → Bool) (e : α)
    (hf : l.find? p = some e) (hq : q e = true) :
    (l.filter q).find? p = some e := by
  induction l with
  | nil => cases hf
  | cons x xs ih =>
    by_cases hpx : p x = true
    · have hx : x = e := by
        have : (x :: xs).find? p = some x := by simp [List.find?, hpx]
        rw [this] at hf
        exact Option.some.inj hf
      subst hx
      rw [List.filter_cons_of_pos hq]
      simp [List.find?, hpx]
    · have hpf : p x = false := by simpa using hpx
      have hf2 : xs.find? p = some e := by
        have : (x :: xs).find? p = xs.find? p := by simp [List.find?, hpf]
        rw [this] at hf
        exact hf
      by_cases hqx : q x = true
      · rw [List.filter_cons_of_pos hqx]
        have : (x :: xs.filter q).find? p = (xs.filter q).find? p := by
          simp [List.find?, hpf]
        rw [this]
        exact ih hf2
      · rw [List.filter_cons_of_neg (by simpa using hqx)]
        exact ih hf2

/-- The purge keeps a looked-up entry whose remaining count is positive. -/
theorem carryLookup_filter_pos (l : Carry) (i : Nat) (t : String) (n : Int)
    (h : carryLookup l i = some (t, n)) (hn : 0 < n) :
    carryLookup (l.filter (fun e => e.2.2 > 0)) i = some (t, n) := by
  unfold carryLookup at h ⊢
  cases hfind : l.find? (fun e => decide (e.1 = i)) with
  | none => rw [hfind] at h; cases h
  | some e =>
    rw [hfind] at h
    have hei : e.1 = i := by simpa using List.find?_some hfind
    have hev : e.2 = (t, n) := by simpa using h
    have he : e = (i, t, n) := by
      cases e with
      | mk a b => simp at hei hev; rw [hei, hev]
    subst he
    rw [find?_filter_keep l _ _ _ hfind (by simpa using hn)]
    simp

/-- C10: a rowspan attribute on a data-row cell also creates a carry entry —
for a data row of the expected width containing at index `i` a cell with
`rowspan = N > 0`, `find_cell_data` records `(cellText, N)` under index `i`
in the returned carry map, and such an entry drives reinsertition into later
short rows exactly as carry entries of banner origin would: a subsequent
short rowspan-free row gets the carried text reinserted at the recorded index
with the count decremented, the entry surviving while the count stays
positive. -/
theorem c10_data_cell_rowspan :
    (∀ (cells : List Cell) (carry : Carry) (m : Int) (i : Nat) (c : Cell) (N : Int),
      cells.get? i = some c → c.rowspan = some N → 0 < N → (cells.length : Int) = m →
      carryLookup (find_cell_data cells (some m) carry).2 i = some (c.text, N))
    ∧ (∀ (cs : List Cell) (m : Int) (i : Nat) (t : String) (n : Int),
      cs ≠ [] → (∀ x ∈ cs, x.rowspan = none) → (cs.length : Int) ≠ m →
      find_cell_data cs (some m) [(i, t, n)]
        = (some (pyInsert (cs.map (fun x => pyStrip x.text)) i t),
           if n - 1 > 0 then [(i, t, n - 1)] else [])) := by
  constructor
  · intro cells carry m i c N hget hrs hN hlen
    have hne : cells ≠ [] := by
      intro h
      subst h
      simp at hget
    unfold find_cell_data
    rw [if_neg hne]
    dsimp only
    have hdata : (cellLoop 0 [] carry cells).1 = cells.map (fun c => pyStrip c.text) := by
      simpa using cellLoop_fst cells 0 [] carry
    have hlen2 : ¬ (((cellLoop 0 [] carry cells).1.length : Int) ≠ m) := by
      rw [hdata]
      simp [hlen]
    rw [if_neg hlen2]
    have hrec : carryLookup (cellLoop 0 [] carry cells).2 i = some (c.text, N) := by
      have := carryLookup_cellLoop_get cells 0 [] carry i c N hget hrs
      simpa using this
    exact carryLookup_filter_pos _ i c.text N hrec hN
  · intro cs m i t n hne hnors hlen
    exact find_cell_data_short cs m i t n hne hnors hlen

/-- Witness for C10 at a concrete two-cell row followed by a short row. -/
theorem c10_witness :
    (([⟨"Bos", some (3 : Int)⟩, ⟨"5", none⟩] : List Cell).get? 0 = some ⟨"Bos", some 3⟩
      ∧ carryLookup (find_cell_data [⟨"Bos", some 3⟩, ⟨"5", none⟩] (some 2) []).2 0
          = some ("Bos", 3))
    ∧ find_cell_data [⟨"7", none⟩] (some 2) [(0, "Bos", 3)]
        = (some ["Bos", "7"], [(0, "Bos", 2)]) :=
  ⟨⟨by decide,
    c10_data_cell_rowspan.1 [⟨"Bos", some 3⟩, ⟨"5", none⟩] [] 2 0 ⟨"Bos", some 3⟩ 3
      (by decide) (by decide) (by decide) (by decide)⟩,
   by
    have h := c10_data_cell_rowspan.2 [⟨"7", none⟩] 2 0 "Bos" 3
      (by decide) (by decide) (by decide)
    simpa using h⟩

/-- The column names produced by the banner loop do not depend on the banner
rowspans, nor on the carry being built. -/
theorem colLoop_fst_strip (cells : List Cell) (idx : Nat) (names : List String)
    (d1 d2 : Carry) :
    (colLoop idx names d1 (cells.map (fun c => (⟨c.text, none⟩ : Cell)))).1
      = (colLoop idx names d2 cells).1 := by
  induction cells generalizing idx names d1 d2 with
  | nil => rfl
  | cons c cs ih =>
    cases hrs : c.rowspan with
    | none =>
      simp only [List.map_cons, colLoop, hrs]
      exact ih (idx + 1) _ d1 d2
    | some n =>
      simp only [List.map_cons, colLoop, hrs]
      exact ih (idx + 1) _ d1 _

/-- Stripping banner rowspans does not change the extracted column names. -/
theorem find_col_names_fst_strip (cells : List Cell) :
    (find_col_names (cells.map (fun c => (⟨c.text, none⟩ : Cell)))).1
      = (find_col_names cells).1 := by
  by_cases hc : cells = []
  · subst hc
    rfl
  · have h1 : cells.map (fun c => (⟨c.text, none⟩ : Cell)) ≠ [] := by
      simpa using hc
    unfold find_col_names
    rw [if_neg hc, if_neg h1]
    dsimp only
    rw [colLoop_fst_strip cells 0 [] [] []]

/-- The table classifier reads only the heading fragments and the colspan
attribute of a row. -/
theorem find_table_name_and_columns_cells_irrel (hs : List String) (ca : Option Int)
    (bc1 bc2 dc1 dc2 : List Cell) :
    find_table_name_and_columns ⟨hs, ca, bc1, dc1⟩
      = find_table_name_and_columns ⟨hs, ca, bc2, dc2⟩ := rfl

/-- One scan step is insensitive to banner rowspans: the carry map derived
from a banner row is dead state (its assignment is unconditionally overwritten
by the carry `find_cell_data` returns for the same row). -/
theorem scanRow_stripBanner (st : TState) (row : Row) :
    scanRow st (stripBannerRowspans row) = scanRow st row := by
  obtain ⟨hs, ca, bc, dc⟩ := row
  show scanRow st ⟨hs, ca, bc.map (fun c => (⟨c.text, none⟩ : Cell)), dc⟩
      = scanRow st ⟨hs, ca, bc, dc⟩
  unfold scanRow
  dsimp only
  rw [find_col_names_fst_strip bc,
      find_table_name_and_columns_cells_irrel hs ca
        (bc.map (fun c => (⟨c.text, none⟩ : Cell))) bc dc dc]

/-- Folding the scan over rowspan-stripped rows equals folding it over the
original rows, from any starting state. -/
theorem foldl_scanRow_strip (rows : List Row) (st : TState) :
    rows.foldl (fun s r => scanRow s (stripBannerRowspans r)) st
      = rows.foldl scanRow st := by
  induction rows generalizing st with
  | nil => rfl
  | cons r rs ih =>
    simp only [List.foldl]
    rw [scanRow_stripBanner]
    exact ih _

/-- The whole table scan is insensitive to banner rowspans. -/
theorem runTable_stripBanner (rows : List Row) :
    runTable (rows.map stripBannerRowspans) = runTable rows := by
  unfold runTable
  rw [List.foldl_map]
  exact foldl_scanRow_strip rows initState

/-- Lifecycle of a single carry entry of count `n` over a run of short,
rowspan-free data rows (at most `n` of them): every row gets the carried text
reinserted at the recorded index, the count drops by one per row, and the
entry is purged exactly when the count reaches zero. -/
theorem stepRows_carry_run (m : Int) (i : Nat) (t : String) (rows : List (List Cell))
    (n : Int)
    (hall : ∀ r ∈ rows, r ≠ [] ∧ (∀ x ∈ r, x.rowspan = none) ∧ ((r.length : Int) ≠ m))
    (hn : 0 < n) (hlen : (rows.length : Int) ≤ n) :
    stepRows (some m) [(i, t, n)] rows
      = (rows.map (fun r => some (pyInsert (r.map (fun x => pyStrip x.text)) i t)),
         if n - rows.length > 0 then [(i, t, n - rows.length)] else []) := by
  induction rows generalizing n with
  | nil =>
    simp [stepRows, hn]
  | cons r rs ih =>
    obtain ⟨hr1, hr2, hr3⟩ := hall r (by simp)
    have hstep := find_cell_data_short r m i t n hr1 hr2 hr3
    simp only [stepRows, hstep]
    by_cases hpos : n - 1 > 0
    · have hall2 : ∀ x ∈ rs, x ≠ [] ∧ (∀ y ∈ x, y.rowspan = none) ∧ ((x.length : Int) ≠ m) :=
        fun x hx => hall x (by simp [hx])
      have hlen2 : (rs.length : Int) ≤ n - 1 := by
        have : ((r :: rs).length : Int) = rs.length + 1 := by simp
        omega
      rw [if_pos hpos, ih (n - 1) hall2 hpos hlen2]
      have harith : n - 1 - rs.length = n - (r :: rs).length := by
        simp
        omega
      simp only [harith, List.map_cons]
    · have hn1 : n = 1 := by omega
      have hrs : rs = [] := by
        subst hn1
        cases rs with
        | nil => rfl
        | cons a b =>
          exfalso
          have : (((r :: a :: b).length : Int)) ≤ 1 := hlen
          simp at this
          omega
      subst hrs
      subst hn1
      simp [stepRows]

/-- Counterexample for C1: in `bannerCarryTable` the banner row declares
`rowspan=2` at column index 0 (so `find_col_names` does produce the carry
entry), the expected column count is 3, and the following data row is short by
exactly one cell at that position — yet no reinsertion happens: the scan
finishes with an empty carry and the short row is discarded instead of showing
the carried value at index 0, because `get_data` overwrites the banner-derived
carry with the one `find_cell_data` returned before it was installed. -/
theorem c1_counterexample :
    (find_col_names [⟨"Team", some 2⟩, ⟨"W", none⟩, ⟨"L", none⟩]).2
        = some [(0, "Team", 2)]
    ∧ (runTable bannerCarryTable).col_num = some 3
    ∧ (runTable bannerCarryTable).data_list = []
    ∧ (runTable bannerCarryTable).duplicate_rows = [] := by
  refine ⟨by decide, by decide, by decide, by decide⟩

/-- C1 (corrected): banner-declared rowspans are recorded by `find_col_names`
but never take effect — `get_data` unconditionally replaces the carry map with
the one returned by `find_cell_data` (computed before the banner map is
installed), so the scan is insensitive to banner rowspans.  Only rowspans on
data-row cells create effective carry entries; such an entry of count `n` has
its text reinserted at its recorded index into each subsequent short data row
with its count decremented by one per row, and it is purged exactly when the
count reaches zero — i.e. after `n` reinsertions, not `n − 1`. -/
theorem c1_rowspan_carry_corrected :
    (∀ rows : List Row, runTable (rows.map stripBannerRowspans) = runTable rows)
    ∧ (∀ (m : Int) (i : Nat) (t : String) (rows : List (List Cell)) (n : Int),
        (∀ r ∈ rows, r ≠ [] ∧ (∀ x ∈ r, x.rowspan = none) ∧ ((r.length : Int) ≠ m)) →
        0 < n → (rows.length : Int) ≤ n →
        stepRows (some m) [(i, t, n)] rows
          = (rows.map (fun r => some (pyInsert (r.map (fun x => pyStrip x.text)) i t)),
             if n - rows.length > 0 then [(i, t, n - rows.length)] else [])) :=
  ⟨runTable_stripBanner,
   fun m i t rows n hall hn hlen => stepRows_carry_run m i t rows n hall hn hlen⟩

/-- Witness for C1 at the concrete table and at a two-row carry run. -/
theorem c1_witness :
    runTable (bannerCarryTable.map stripBannerRowspans) = runTable bannerCarryTable
    ∧ stepRows (some 3) [(0, "Team", 2)]
        [[⟨"95", none⟩, ⟨"59", none⟩], [⟨"96", none⟩, ⟨"58", none⟩]]
      = ([some ["Team", "95", "59"], some ["Team", "96", "58"]], []) :=
  ⟨c1_rowspan_carry_corrected.1 bannerCarryTable,
   by
    have h := c1_rowspan_carry_corrected.2 3 0 "Team"
      [[⟨"95", none⟩, ⟨"59", none⟩], [⟨"96", none⟩, ⟨"58", none⟩]] 2
      (by decide) (by decide) (by decide)
    simpa using h⟩

/-- Membership in a dict after an update comes from the old dict or is the
new pair. -/
theorem mem_assocSet {α : Type} (d : List (String × α)) (k : String) (v : α)
    (p : String × α) (hp : p ∈ assocSet d k v) : p ∈ d ∨ p = (k, v) := by
  unfold assocSet at hp
  by_cases hany : d.any (fun q => q.1 = k) = true
  · rw [if_pos hany] at hp
    obtain ⟨q, hq, hfq⟩ := List.mem_map.mp hp
    by_cases hqk : q.1 = k
    · right
      rw [← hfq]
      simp [hqk]
    · left
      rw [← hfq]
      simpa [hqk] using hq
  · rw [if_neg hany] at hp
    rcases List.mem_append.mp hp with h | h
    · exact Or.inl h
    · right
      simpa using h

/-- Updating a dict rewrites values in place or appends, so the key list is
unchanged in the first case. -/
theorem dictKeys_assocSet_present {α : Type} (d : List (String × α)) (k : String)
    (v : α) :
    dictKeys (d.map (fun p => if p.1 = k then (k, v) else p)) = dictKeys d := by
  unfold dictKeys
  rw [List.map_map]
  apply List.map_congr_left
  intro p hp
  by_cases hpk : p.1 = k <;> simp [hpk]

/-- Keys present in a dict after an update: the old keys plus the new one. -/
theorem memKeys_assocSet {α : Type} (d : List (String × α)) (k : String) (v : α)
    (x : String) : x ∈ dictKeys (assocSet d k v) ↔ x ∈ dictKeys d ∨ x = k := by
  unfold assocSet
  by_cases hany : d.any (fun q => q.1 = k) = true
  · rw [if_pos hany, dictKeys_assocSet_present]
    have hk : k ∈ dictKeys d := by
      obtain ⟨q, hq, hqk⟩ := List.any_eq_true.mp hany
      exact List.mem_map.mpr ⟨q, hq, by simpa using hqk⟩
    constructor
    · exact fun hx => Or.inl hx
    · rintro (hx | hx)
      · exact hx
      · subst hx
        exact hk
  · rw [if_neg hany]
    unfold dictKeys
    simp

/-- Updating a dict preserves distinctness of its keys. -/
theorem keysNodup_assocSet {α : Type} (d : List (String × α)) (k : String) (v : α)
    (hd : keysNodup d) : keysNodup (assocSet d k v) := by
  unfold assocSet
  by_cases hany : d.any (fun q => q.1 = k) = true
  · rw [if_pos hany]
    unfold keysNodup at hd ⊢
    rw [dictKeys_assocSet_present]
    exact hd
  · rw [if_neg hany]
    have hk : k ∉ dictKeys d := by
      intro hx
      obtain ⟨q, hq, hqk⟩ := List.mem_map.mp hx
      have h2 : d.any (fun q => decide (q.1 = k)) = true :=
        List.any_eq_true.mpr ⟨q, hq, by simpa using hqk⟩
      exact hany h2
    unfold keysNodup dictKeys at hd ⊢
    rw [List.map_append]
    simp only [List.map_cons, List.map_nil]
    rw [List.nodup_append]
    exact ⟨hd, List.nodup_singleton k, by
      intro x hx hmem
      have : x = k := by simpa using hmem
      subst this
      exact hk hx⟩

/-- Keys of the dict built by zipping: exactly the zipped keys. -/
theorem memKeys_dictOfZip {α : Type} (ks : List String) (vs : List α) (x : String) :
    x ∈ dictKeys (dictOfZip ks vs) ↔ x ∈ (List.zip ks vs).map Prod.fst := by
  unfold dictOfZip
  have haux : ∀ (pairs : List (String × α)) (d : List (String × α)),
      x ∈ dictKeys (pairs.foldl (fun d kv => assocSet d kv.1 kv.2) d)
        ↔ x ∈ dictKeys d ∨ x ∈ pairs.map Prod.fst := by
    intro pairs
    induction pairs with
    | nil => simp
    | cons q qs ih =>
      intro d
      simp only [List.foldl]
      rw [ih (assocSet d q.1 q.2)]
      rw [memKeys_assocSet]
      simp only [List.map_cons, List.mem_cons]
      tauto
  rw [haux _ []]
  simp [dictKeys]

/-- The dict built by zipping has distinct keys. -/
theorem keysNodup_dictOfZip {α : Type} (ks : List String) (vs : List α) :
    keysNodup (dictOfZip ks vs) := by
  unfold dictOfZip
  have haux : ∀ (pairs : List (String × α)) (d : List (String × α)),
      keysNodup d → keysNodup (pairs.foldl (fun d kv => assocSet d kv.1 kv.2) d) := by
    intro pairs
    induction pairs with
    | nil => exact fun d h => h
    | cons q qs ih =>
      intro d hd
      exact ih _ (keysNodup_assocSet d q.1 q.2 hd)
  exact haux _ [] (by simp [keysNodup, dictKeys])

/-- Size of the dict built by zipping a full-width row: the number of
distinct column names. -/
theorem dictOfZip_length {α : Type} (ks : List String) (vs : List α)
    (hlen : vs.length = ks.length) :
    (dictOfZip ks vs).length = ks.toFinset.card := by
  have hnd : keysNodup (dictOfZip ks vs) := keysNodup_dictOfZip ks vs
  have hfst : (List.zip ks vs).map Prod.fst = ks :=
    List.map_fst_zip ks vs (by omega)
  have hset : (dictKeys (dictOfZip ks vs)).toFinset = ks.toFinset := by
    ext x
    simp only [List.mem_toFinset]
    rw [memKeys_dictOfZip, hfst]
  calc (dictOfZip ks vs).length
      = (dictKeys (dictOfZip ks vs)).length := by simp [dictKeys]
    _ = (dictKeys (dictOfZip ks vs)).toFinset.card :=
        (List.toFinset_card_of_nodup hnd).symm
    _ = ks.toFinset.card := by rw [hset]

/-- The column-name component of one scan step. -/
theorem scanRow_col_names (st : TState) (row : Row) :
    (scanRow st row).col_names
      = match bannerNames row with
        | some cs => if cs ≠ [] then cs else st.col_names
        | none => st.col_names := rfl

/-- The kept-row component of one scan step. -/
theorem scanRow_data_list (st : TState) (row : Row) :
    (scanRow st row).data_list
      = match (find_cell_data row.dataCells st.col_num st.duplicate_rows).1 with
        | some rd =>
          if rd ≠ [] ∧ (scanRow st row).col_names ≠ []
              ∧ rd.length = (scanRow st row).col_names.length then
            st.data_list ++ [rd]
          else st.data_list
        | none => st.data_list := rfl

/-- One scan step preserves the single-banner invariant: the column list is
either still unset or equal to the common banner list `C`, rows are kept only
once the column list is set, and every kept row has width `C`. -/
theorem scanRow_consistent (C : List String) (st : TState) (row : Row)
    (hb : bannerNames row = none ∨ bannerNames row = some C)
    (h1 : st.col_names = [] ∨ st.col_names = C)
    (h2 : st.data_list ≠ [] → st.col_names ≠ [])
    (h3 : ∀ d ∈ st.data_list, d.length = C.length) :
    ((scanRow st row).col_names = [] ∨ (scanRow st row).col_names = C)
    ∧ ((scanRow st row).data_list ≠ [] → (scanRow st row).col_names ≠ [])
    ∧ ∀ d ∈ (scanRow st row).data_list, d.length = C.length := by
  have hcol : (scanRow st row).col_names = st.col_names
      ∨ ((scanRow st row).col_names = C ∧ C ≠ []) := by
    rw [scanRow_col_names]
    rcases hb with hb | hb
    · rw [hb]
      exact Or.inl rfl
    · rw [hb]
      by_cases hC : C = []
      · dsimp only
        rw [if_neg (by simpa using hC)]
        exact Or.inl rfl
      · dsimp only
        rw [if_pos hC]
        exact Or.inr ⟨rfl, hC⟩
  have hN1 : (scanRow st row).col_names = [] ∨ (scanRow st row).col_names = C := by
    rcases hcol with h | h
    · rw [h]; exact h1
    · exact Or.inr h.1
  have hNne : st.col_names ≠ [] → (scanRow st row).col_names ≠ [] := by
    intro hne
    rcases hcol with h | h
    · rw [h]; exact hne
    · rw [h.1]; exact h.2
  have hNC : (scanRow st row).col_names ≠ [] → (scanRow st row).col_names = C := by
    intro hne
    rcases hN1 with h | h
    · exact absurd h hne
    · exact h
  refine ⟨hN1, ?_, ?_⟩
  · rw [scanRow_data_list]
    cases hcd : (find_cell_data row.dataCells st.col_num st.duplicate_rows).1 with
    | none =>
      intro hne
      exact hNne (h2 hne)
    | some rd =>
      dsimp only
      split_ifs with hcond
      · intro _
        exact hcond.2.1
      · intro hne
        exact hNne (h2 hne)
  · rw [scanRow_data_list]
    cases hcd : (find_cell_data row.dataCells st.col_num st.duplicate_rows).1 with
    | none => exact h3
    | some rd =>
      dsimp only
      split_ifs with hcond
      · intro d hd
        rcases List.mem_append.mp hd with h | h
        · exact h3 d h
        · have hdr : d = rd := by simpa using h
          subst hdr
          rw [hcond.2.2, hNC hcond.2.1]
      · exact h3

/-- The single-banner invariant holds after scanning any suffix of rows, from
any state satisfying it. -/
theorem foldl_scanRow_consistent (C : List String) (rows : List Row) (st : TState)
    (hb : ∀ row ∈ rows, bannerNames row = none ∨ bannerNames row = some C)
    (h1 : st.col_names = [] ∨ st.col_names = C)
    (h2 : st.data_list ≠ [] → st.col_names ≠ [])
    (h3 : ∀ d ∈ st.data_list, d.length = C.length) :
    ((rows.foldl scanRow st).col_names = [] ∨ (rows.foldl scanRow st).col_names = C)
    ∧ ((rows.foldl scanRow st).data_list ≠ [] → (rows.foldl scanRow st).col_names ≠ [])
    ∧ ∀ d ∈ (rows.foldl scanRow st).data_list, d.length = C.length := by
  induction rows generalizing st with
  | nil => exact ⟨h1, h2, h3⟩
  | cons r rs ih =>
    have hstep := scanRow_consistent C st r (hb r (by simp)) h1 h2 h3
    exact ih (scanRow st r) (fun row hrow => hb row (by simp [hrow]))
      hstep.1 hstep.2.1 hstep.2.2

/-- In a single-banner table every kept row has the width of the final column
list, and every assembled record has as many columns as the table's column
set. -/
theorem runTable_consistent_width (C : List String) (rows : List Row)
    (hb : ∀ row ∈ rows, bannerNames row = none ∨ bannerNames row = some C) :
    (∀ d ∈ (runTable rows).data_list, d.length = (runTable rows).col_names.length)
    ∧ ∀ r ∈ tableRecords (runTable rows),
        r.length = (runTable rows).col_names.toFinset.card := by
  have hinv := foldl_scanRow_consistent C rows initState hb (Or.inl rfl)
    (by intro h; exact absurd rfl h) (by intro d hd; cases hd)
  obtain ⟨hc1, hc2, hc3⟩ := hinv
  have hwidth : ∀ d ∈ (runTable rows).data_list,
      d.length = (runTable rows).col_names.length := by
    intro d hd
    have hne : (runTable rows).data_list ≠ [] := by
      intro h
      rw [h] at hd
      cases hd
    have hcolC : (runTable rows).col_names = C := by
      rcases hc1 with h | h
      · exact absurd h (hc2 hne)
      · exact h
    rw [hcolC]
    exact hc3 d hd
  refine ⟨hwidth, ?_⟩
  intro r hr
  obtain ⟨d, hd, hrd⟩ := List.mem_map.mp hr
  subst hrd
  have hlen : (d.map Val.str).length = (runTable rows).col_names.length := by
    rw [List.length_map]
    exact hwidth d hd
  exact dictOfZip_length _ _ hlen

/-- An entry of the dicts built by one `get_data` step is an old entry or the
just-emitted table. -/
theorem getDataStep_mem (pt : List (String × List Rec) × List (String × List Rec))
    (rows : List Row) (kind : String) (recs : List Rec)
    (hmem : (kind, recs) ∈ (getDataStep pt rows).1
        ∨ (kind, recs) ∈ (getDataStep pt rows).2) :
    ((kind, recs) ∈ pt.1 ∨ (kind, recs) ∈ pt.2)
    ∨ (tableEmitted (runTable rows) ∧ recs = tableRecords (runTable rows)) := by
  unfold getDataStep at hmem
  dsimp only at hmem
  split_ifs at hmem with hem hp ht
  · rcases hmem with h | h
    · rcases mem_assocSet _ _ _ _ h with h2 | h2
      · exact Or.inl (Or.inl h2)
      · right
        refine ⟨hem, ?_⟩
        have := congrArg Prod.snd h2
        simpa using this
    · exact Or.inl (Or.inr h)
  · rcases hmem with h | h
    · exact Or.inl (Or.inl h)
    · rcases mem_assocSet _ _ _ _ h with h2 | h2
      · exact Or.inl (Or.inr h2)
      · right
        refine ⟨hem, ?_⟩
        have := congrArg Prod.snd h2
        simpa using this
  · exact Or.inl hmem
  · exact Or.inl hmem

/-- Every table filed by `get_data` was emitted by the scan of one of the
page's tables. -/
theorem get_data_mem (tables : List (List Row)) (kind : String) (recs : List Rec)
    (hmem : (kind, recs) ∈ (get_data tables).1 ∨ (kind, recs) ∈ (get_data tables).2) :
    ∃ rows ∈ tables, tableEmitted (runTable rows)
      ∧ recs = tableRecords (runTable rows) := by
  have haux : ∀ (ts : List (List Row)) (pt : _),
      ((kind, recs) ∈ (ts.foldl getDataStep pt).1
        ∨ (kind, recs) ∈ (ts.foldl getDataStep pt).2) →
      ((kind, recs) ∈ pt.1 ∨ (kind, recs) ∈ pt.2)
      ∨ ∃ rows ∈ ts, tableEmitted (runTable rows)
          ∧ recs = tableRecords (runTable rows) := by
    intro ts
    induction ts with
    | nil => exact fun pt h => Or.inl h
    | cons t ts2 ih =>
      intro pt h
      rcases ih (getDataStep pt t) h with h2 | h2
      · rcases getDataStep_mem pt t kind recs h2 with h3 | h3
        · exact Or.inl h3
        · exact Or.inr ⟨t, by simp, h3.1, h3.2⟩
      · obtain ⟨rows, hrows, hrest⟩ := h2
        exact Or.inr ⟨rows, by simp [hrows], hrest⟩
  rcases haux tables ([], []) hmem with h | h
  · rcases h with h | h <;> cases h
  · exact h

/-- Counterexample for C2: in `twoBannerTable` (two banner rows of different
widths) the emitted Standings table's first record has 2 columns while the
column set at assembly time has 3 — the first data row was checked against the
two-column list current at its row but zipped with the final three-column
list, so the claimed equality fails on an emitted record. -/
theorem c2_counterexample :
    (get_data [twoBannerTable]).2
        = [("Standings", tableRecords (runTable twoBannerTable))]
    ∧ ((tableRecords (runTable twoBannerTable)).getD 0 []).length = 2
    ∧ (runTable twoBannerTable).col_names.toFinset.card = 3
    ∧ (tableRecords (runTable twoBannerTable)).getD 0 []
        ∈ tableRecords (runTable twoBannerTable) := by
  refine ⟨by decide, by decide, by decide, by decide⟩

/-- C2 (amended): for every emitted table whose banner rows all declare the
same column list (in particular any table with at most one banner row), every
assembled record has as many columns as the table's column set at assembly
time, and any data row whose resolved cell count (after rowspan reinsertion)
differs from the column count is discarded and does not appear in the kept
rows.  (With several banner rows of different widths, a row is checked against
the column list current at that row but zipped with the final one, and the
claimed equality can fail — see the counterexample.) -/
theorem c2_record_width (tables : List (List Row))
    (hb : ∀ rows ∈ tables, ∃ C, ∀ row ∈ rows,
        bannerNames row = none ∨ bannerNames row = some C)
    (kind : String) (recs : List Rec)
    (hmem : (kind, recs) ∈ (get_data tables).1 ∨ (kind, recs) ∈ (get_data tables).2) :
    ∃ rows ∈ tables,
      tableEmitted (runTable rows)
      ∧ recs = tableRecords (runTable rows)
      ∧ (∀ d ∈ (runTable rows).data_list, d.length = (runTable rows).col_names.length)
      ∧ ∀ r ∈ recs, r.length = (runTable rows).col_names.toFinset.card := by
  obtain ⟨rows, hrows, hem, hrecs⟩ := get_data_mem tables kind recs hmem
  obtain ⟨C, hC⟩ := hb rows hrows
  obtain ⟨hw, hr⟩ := runTable_consistent_width C rows hC
  subst hrecs
  exact ⟨rows, hrows, hem, rfl, hw, hr⟩

/-- Witness for C2 on a single-banner table. -/
theorem c2_witness :
    (∀ rows ∈ [singleBannerTable], ∃ C, ∀ row ∈ rows,
        bannerNames row = none ∨ bannerNames row = some C)
    ∧ (("Standings", [[("A", Val.str "1"), ("B", Val.str "2")]])
          ∈ (get_data [singleBannerTable]).1
        ∨ ("Standings", [[("A", Val.str "1"), ("B", Val.str "2")]])
          ∈ (get_data [singleBannerTable]).2)
    ∧ ∃ rows ∈ [singleBannerTable],
        tableEmitted (runTable rows)
        ∧ [[("A", Val.str "1"), ("B", Val.str "2")]] = tableRecords (runTable rows)
        ∧ (∀ d ∈ (runTable rows).data_list, d.length = (runTable rows).col_names.length)
        ∧ ∀ r ∈ [[("A", Val.str "1"), ("B", Val.str "2")]],
            r.length = (runTable rows).col_names.toFinset.card := by
  have hb : ∀ rows ∈ [singleBannerTable], ∃ C, ∀ row ∈ rows,
      bannerNames row = none ∨ bannerNames row = some C := by
    intro rows hrows
    refine ⟨["A", "B"], ?_⟩
    have hr : rows = singleBannerTable := by simpa using hrows
    subst hr
    decide
  have hmem : ("Standings", [[("A", Val.str "1"), ("B", Val.str "2")]])
        ∈ (get_data [singleBannerTable]).1
      ∨ ("Standings", [[("A", Val.str "1"), ("B", Val.str "2")]])
        ∈ (get_data [singleBannerTable]).2 := by
    right
    decide
  exact ⟨hb, hmem,
    c2_record_width [singleBannerTable] hb "Standings"
      [[("A", Val.str "1"), ("B", Val.str "2")]] hmem⟩

/-- Reading below the old length is unaffected by grown store. -/
theorem readH_append (h δ : Heap) (i : Nat) (hi : i < h.length) :
    readH (h ++ δ) i = readH h i := by
  unfold readH
  rw [List.getD_eq_getElem?_getD, List.getD_eq_getElem?_getD,
    List.getElem?_append_left hi]

/-- Reading the cell just allocated. -/
theorem readH_append_self (h : Heap) (x : Rec) :
    readH (h ++ [x]) h.length = x := by
  unfold readH
  rw [List.getD_eq_getElem?_getD, List.getElem?_append_right (le_refl _)]
  simp

/-- `add_to_table` only allocates. -/
theorem add_to_table_extends (h : Heap) (table : List Rec) (ref : Nat)
    (y : Int) (l : String) : ∃ δ, (add_to_table h table ref y l).1 = h ++ δ := by
  unfold add_to_table
  dsimp only
  split_ifs
  · exact ⟨[], by simp⟩
  · exact ⟨[stampRec (readH h ref) y l], rfl⟩

/-- `normalize_standings_on_heap` only allocates. -/
theorem normalize_on_heap_extends (h : Heap) (ref : Nat) :
    ∃ δ, (normalize_standings_on_heap h ref).1 = h ++ δ := by
  unfold normalize_standings_on_heap
  dsimp only
  split_ifs
  · exact ⟨[], by simp⟩
  · exact ⟨[normalize_standings_row (readH h ref)], rfl⟩

/-- Unfolding of the hit/pitch loop on a first reference. -/
theorem addAll_cons (h : Heap) (table : List Rec) (r : Nat) (rs : List Nat)
    (y : Int) (l : String) :
    addAll h table (r :: rs) y l
      = addAll (add_to_table h table r y l).1 (add_to_table h table r y l).2 rs y l := rfl

/-- Unfolding of the standings loop on a first reference. -/
theorem addAllStandings_cons (h : Heap) (table : List Rec) (r : Nat) (rs : List Nat)
    (y : Int) (l : String) :
    addAllStandings h table (r :: rs) y l
      = addAllStandings
          (add_to_table (normalize_standings_on_heap h r).1 table
            (normalize_standings_on_heap h r).2 y l).1
          (add_to_table (normalize_standings_on_heap h r).1 table
            (normalize_standings_on_heap h r).2 y l).2 rs y l := rfl

/-- The hit/pitch loop only allocates. -/
theorem addAll_extends (refs : List Nat) (h : Heap) (table : List Rec)
    (y : Int) (l : String) : ∃ δ, (addAll h table refs y l).1 = h ++ δ := by
  induction refs generalizing h table with
  | nil => exact ⟨[], by simp [addAll]⟩
  | cons r rs ih =>
    rw [addAll_cons]
    obtain ⟨δ1, h1⟩ := add_to_table_extends h table r y l
    obtain ⟨δ2, h2⟩ := ih (add_to_table h table r y l).1 (add_to_table h table r y l).2
    exact ⟨δ1 ++ δ2, by rw [h2, h1, List.append_assoc]⟩

/-- The standings loop only allocates. -/
theorem addAllStandings_extends (refs : List Nat) (h : Heap) (table : List Rec)
    (y : Int) (l : String) :
    ∃ δ, (addAllStandings h table refs y l).1 = h ++ δ := by
  induction refs generalizing h table with
  | nil => exact ⟨[], by simp [addAllStandings]⟩
  | cons r rs ih =>
    rw [addAllStandings_cons]
    obtain ⟨δ0, h0⟩ := normalize_on_heap_extends h r
    obtain ⟨δ1, h1⟩ := add_to_table_extends (normalize_standings_on_heap h r).1 table
      (normalize_standings_on_heap h r).2 y l
    obtain ⟨δ2, h2⟩ := ih _ (add_to_table (normalize_standings_on_heap h r).1 table
      (normalize_standings_on_heap h r).2 y l).2
    refine ⟨δ0 ++ δ1 ++ δ2, ?_⟩
    rw [h2, h1, h0]
    simp [List.append_assoc]

/-- One page's conversion only allocates. -/
theorem convertPage_extends (s : ConvOut) (y : Int) (l : String) (data : PageData) :
    ∃ δ, (convertPage s y l data).heap = s.heap ++ δ := by
  unfold convertPage
  dsimp only
  obtain ⟨δ1, h1⟩ := addAll_extends (dictGetD data "Hitting Statistics" []) s.heap s.hit y l
  obtain ⟨δ2, h2⟩ := addAll_extends (dictGetD data "Pitching Statistics" [])
    (addAll s.heap s.hit (dictGetD data "Hitting Statistics" []) y l).1 s.pitch y l
  obtain ⟨δ3, h3⟩ := addAllStandings_extends (dictGetD data "Standings" [])
    (addAll (addAll s.heap s.hit (dictGetD data "Hitting Statistics" []) y l).1 s.pitch
      (dictGetD data "Pitching Statistics" []) y l).1 s.standing y l
  refine ⟨δ1 ++ δ2 ++ δ3, ?_⟩
  rw [h3, h2, h1]
  simp [List.append_assoc]

/-- The inner fold over one year's leagues only allocates. -/
theorem innerFold_extends (lgs : List (String × PageData)) (y : Int) (s : ConvOut) :
    ∃ δ, ((lgs.foldl (fun s ld => convertPage s y ld.1 ld.2) s)).heap = s.heap ++ δ := by
  induction lgs generalizing s with
  | nil => exact ⟨[], by simp⟩
  | cons ld rest ih =>
    simp only [List.foldl]
    obtain ⟨δ1, h1⟩ := convertPage_extends s y ld.1 ld.2
    obtain ⟨δ2, h2⟩ := ih (convertPage s y ld.1 ld.2)
    exact ⟨δ1 ++ δ2, by rw [h2, h1, List.append_assoc]⟩

/-- The whole conversion only allocates. -/
theorem convert_extends (h : Heap) (acc : Acc) :
    ∃ δ, (convert_stats_to_df h acc).heap = h ++ δ := by
  unfold convert_stats_to_df
  have haux : ∀ (a : Acc) (s : ConvOut),
      ∃ δ, ((a.foldl (fun s yl => yl.2.foldl (fun s ld => convertPage s yl.1 ld.1 ld.2) s) s)).heap
        = s.heap ++ δ := by
    intro a
    induction a with
    | nil => exact fun s => ⟨[], by simp⟩
    | cons yl rest ih =>
      intro s
      simp only [List.foldl]
      obtain ⟨δ1, h1⟩ := innerFold_extends yl.2 yl.1 s
      obtain ⟨δ2, h2⟩ := ih (yl.2.foldl (fun s ld => convertPage s yl.1 ld.1 ld.2) s)
      exact ⟨δ1 ++ δ2, by rw [h2, h1, List.append_assoc]⟩
  simpa using haux acc ⟨h, [], [], []⟩

/-- C9: aggregation does not mutate the accumulated records — `add_to_table`
and `normalize_standings_row` copy (`dict(items)`) before stamping or
renaming, so after the whole conversion every store cell the accumulator can
reference still holds exactly the record it held before. -/
theorem c9_convert_preserves_records (h : Heap) (acc : Acc) (i : Nat)
    (hi : i < h.length) :
    readH (convert_stats_to_df h acc).heap i = readH h i := by
  obtain ⟨δ, hδ⟩ := convert_extends h acc
  rw [hδ]
  exact readH_append h δ i hi

/-- Witness for C9 on a one-record accumulator. -/
theorem c9_witness :
    (0 : Nat) < ([[("Team", Val.str "Red Sox")]] : Heap).length
    ∧ readH (convert_stats_to_df [[("Team", Val.str "Red Sox")]]
        [(1905, [("American League", [("Standings", [0])])])]).heap 0
      = readH [[("Team", Val.str "Red Sox")]] 0 :=
  ⟨by decide,
   c9_convert_preserves_records [[("Team", Val.str "Red Sox")]]
     [(1905, [("American League", [("Standings", [0])])])] 0 (by decide)⟩

/-- Looking up the key just written. -/
theorem dictLookup_assocSet_self {α : Type} (d : List (String × α)) (k : String)
    (v : α) : dictLookup (assocSet d k v) k = some v := by
  unfold assocSet dictLookup
  by_cases hany : d.any (fun p => p.1 = k) = true
  · rw [if_pos hany, List.find?_map]
    have hpf : ((fun (p : String × α) => decide (p.1 = k))
        ∘ (fun p => if p.1 = k then (k, v) else p))
        = (fun (p : String × α) => decide (p.1 = k)) := by
      funext x
      by_cases hx : x.1 = k <;> simp [hx]
    rw [hpf]
    have hsome : (d.find? (fun p => decide (p.1 = k))).isSome := by
      rw [List.find?_isSome]
      obtain ⟨x, hx, hpx⟩ := List.any_eq_true.mp hany
      exact ⟨x, hx, hpx⟩
    obtain ⟨e, he⟩ := Option.isSome_iff_exists.mp hsome
    have hei : e.1 = k := by simpa using List.find?_some he
    rw [he]
    simp [hei]
  · rw [if_neg hany, List.find?_append]
    have hnone : d.find? (fun p => decide (p.1 = k)) = none := by
      rw [List.find?_eq_none]
      intro x hx
      have := List.any_eq_false.mp (Bool.not_eq_true _ ▸ hany) x hx
      simpa using this
    rw [hnone]
    simp

/-- Writing one key does not change the lookup of another. -/
theorem dictLookup_assocSet_other {α : Type} (d : List (String × α)) (k k2 : String)
    (v : α) (hkk : k2 ≠ k) :
    dictLookup (assocSet d k v) k2 = dictLookup d k2 := by
  unfold assocSet dictLookup
  by_cases hany : d.any (fun p => p.1 = k) = true
  · rw [if_pos hany, List.find?_map]
    have hpf : ((fun (p : String × α) => decide (p.1 = k2))
        ∘ (fun p => if p.1 = k then (k, v) else p))
        = (fun (p : String × α) => decide (p.1 = k2)) := by
      funext x
      by_cases hx : x.1 = k <;> simp [hx, Ne.symm hkk]
    rw [hpf]
    cases hfind : d.find? (fun p => decide (p.1 = k2)) with
    | none => simp
    | some e =>
      have hek : e.1 = k2 := by simpa using List.find?_some hfind
      have hei : ¬ (e.1 = k) := by rw [hek]; exact hkk
      simp [hei]
  · rw [if_neg hany, List.find?_append]
    cases hfind : d.find? (fun p => decide (p.1 = k2)) with
    | none => simp [Ne.symm hkk]
    | some e => simp

/-- The stamped copy answers `Year` with the page's year. -/
theorem stampRec_lookup_year (r : Rec) (y : Int) (l : String) :
    dictLookup (stampRec r y l) "Year" = some (Val.num y) := by
  unfold stampRec
  rw [dictLookup_assocSet_other _ "League" "Year" _ (by decide),
    dictLookup_assocSet_self]

/-- The stamped copy answers `League` with the page's league. -/
theorem stampRec_lookup_league (r : Rec) (y : Int) (l : String) :
    dictLookup (stampRec r y l) "League" = some (Val.str l) := by
  unfold stampRec
  rw [dictLookup_assocSet_self]

/-- Stamping preserves distinctness of the keys. -/
theorem keysNodup_stampRec (r : Rec) (y : Int) (l : String) (h : keysNodup r) :
    keysNodup (stampRec r y l) :=
  keysNodup_assocSet _ _ _ (keysNodup_assocSet _ _ _ h)

/-- A dict with distinct keys holds a looked-up key exactly once. -/
theorem keyCount_eq_one_of_lookup {α : Type} (d : List (String × α)) (k : String)
    (hnd : keysNodup d) (v : α) (hv : dictLookup d k = some v) :
    keyCount d k = 1 := by
  have hk : k ∈ dictKeys d := by
    unfold dictLookup at hv
    cases hfind : d.find? (fun p => decide (p.1 = k)) with
    | none => rw [hfind] at hv; cases hv
    | some e =>
      have he : e ∈ d := List.mem_of_find?_eq_some hfind
      have hek : e.1 = k := by simpa using List.find?_some hfind
      exact List.mem_map.mpr ⟨e, he, hek⟩
  exact List.count_eq_one_of_mem hnd hk

/-- Both stamps appear exactly once in a stamped record with distinct keys. -/
theorem stampRec_counts (r : Rec) (y : Int) (l : String) (h : keysNodup r) :
    keyCount (stampRec r y l) "Year" = 1 ∧ keyCount (stampRec r y l) "League" = 1 := by
  have hnd := keysNodup_stampRec r y l h
  exact ⟨keyCount_eq_one_of_lookup _ _ hnd _ (stampRec_lookup_year r y l),
    keyCount_eq_one_of_lookup _ _ hnd _ (stampRec_lookup_league r y l)⟩

/-- Removing a key preserves distinctness of the keys. -/
theorem keysNodup_dictRemove {α : Type} (d : List (String × α)) (k : String)
    (h : keysNodup d) : keysNodup (dictRemove d k) := by
  unfold keysNodup dictKeys at h
  unfold keysNodup dictKeys dictRemove
  exact List.Nodup.sublist (List.Sublist.map _ (List.filter_sublist d)) h

/-- `setdefault` preserves distinctness of the keys. -/
theorem keysNodup_dictSetdefault {α : Type} (d : List (String × α)) (k : String)
    (v : α) (h : keysNodup d) : keysNodup (dictSetdefault d k v) := by
  unfold dictSetdefault
  split_ifs with hk
  · exact h
  · have hnot : k ∉ dictKeys d := by
      intro hx
      obtain ⟨q, hq, hqk⟩ := List.mem_map.mp hx
      have h2 : dictHasKey d k = true :=
        List.any_eq_true.mpr ⟨q, hq, by simpa using hqk⟩
      simp [h2] at hk
    unfold keysNodup dictKeys at h ⊢
    rw [List.map_append]
    simp only [List.map_cons, List.map_nil]
    rw [List.nodup_append]
    exact ⟨h, List.nodup_singleton k, by
      intro x hx hmem
      have : x = k := by simpa using hmem
      subst this
      exact hnot hx⟩

/-- Schema normalization preserves distinctness of the keys. -/
theorem keysNodup_normalize (r : Rec) (h : keysNodup r) :
    keysNodup (normalize_standings_row r) := by
  unfold normalize_standings_row
  split_ifs with hr
  · exact h
  · dsimp only
    have h1 : ∀ (d : Rec) (k1 k2 : String), keysNodup d →
        keysNodup (match dictLookup d k1, dictHasKey d k2 with
          | some v, false => assocSet (dictRemove d k1) k2 v
          | _, _ => d) := by
      intro d k1 k2 hd
      cases hv : dictLookup d k1 with
      | none => cases hb : dictHasKey d k2 <;> exact hd
      | some v =>
        cases hb : dictHasKey d k2 with
        | false => exact keysNodup_assocSet _ _ _ (keysNodup_dictRemove d k1 hd)
        | true => exact hd
    have h2 : ∀ (d : Rec), keysNodup d →
        keysNodup (match dictLookup d "Team | Roster" with
          | some v =>
            dictSetdefault (dictSetdefault (dictRemove d "Team | Roster") "Team" v)
              "Roster" (Val.str "")
          | none => d) := by
      intro d hd
      cases hv : dictLookup d "Team | Roster" with
      | none => exact hd
      | some v =>
        exact keysNodup_dictSetdefault _ _ _
          (keysNodup_dictSetdefault _ _ _ (keysNodup_dictRemove d _ hd))
    exact h1 _ "Losses" "L" (h1 _ "Wins" "W" (h2 _ (h1 r "Team [Click for roster]" "Team" h)))

/-- A reference taken from one kind's list is a reference of the page. -/
theorem mem_dictGetD_pageRefs (data : PageData) (kind : String) (r : Nat)
    (hr : r ∈ dictGetD data kind []) : r ∈ pageRefs data := by
  unfold dictGetD dictLookup at hr
  cases hfind : data.find? (fun p => decide (p.1 = kind)) with
  | none =>
    rw [hfind] at hr
    simp at hr
  | some e =>
    rw [hfind] at hr
    simp at hr
    have he : e ∈ data := List.mem_of_find?_eq_some hfind
    exact List.mem_flatMap.mpr ⟨e, he, hr⟩

/-- The table component of `add_to_table`. -/
theorem add_to_table_snd (h : Heap) (table : List Rec) (ref : Nat) (y : Int)
    (l : String) :
    (add_to_table h table ref y l).2
      = table ++ (if readH h ref = [] then []
          else [stampRec (readH h ref) y l]) := by
  unfold add_to_table
  dsimp only
  split_ifs with hi <;> simp

/-- Records appended by the hit/pitch loop are stamped copies of the records
its references point to. -/
theorem addAll_mem (refs : List Nat) (h : Heap) (table : List Rec) (y : Int)
    (l : String) (hw : ∀ x ∈ refs, x < h.length) (rec : Rec)
    (hmem : rec ∈ (addAll h table refs y l).2) :
    rec ∈ table
    ∨ ∃ r ∈ refs, readH h r ≠ [] ∧ rec = stampRec (readH h r) y l := by
  induction refs generalizing h table with
  | nil =>
    simp [addAll] at hmem
    exact Or.inl hmem
  | cons r rs ih =>
    rw [addAll_cons] at hmem
    obtain ⟨δ, hδ⟩ := add_to_table_extends h table r y l
    have hw2 : ∀ x ∈ rs, x < (add_to_table h table r y l).1.length := by
      intro x hx
      rw [hδ, List.length_append]
      have := hw x (by simp [hx])
      omega
    rcases ih (add_to_table h table r y l).1 (add_to_table h table r y l).2 hw2 hmem
      with hin | hin
    · rw [add_to_table_snd] at hin
      rcases List.mem_append.mp hin with h1 | h1
      · exact Or.inl h1
      · by_cases hemp : readH h r = []
        · rw [if_pos hemp] at h1
          cases h1
        · rw [if_neg hemp] at h1
          have h2 : rec = stampRec (readH h r) y l := by simpa using h1
          exact Or.inr ⟨r, by simp, hemp, h2⟩
    · obtain ⟨r2, hr2, hne, heq⟩ := hin
      have hlt2 : r2 < h.length := hw r2 (by simp [hr2])
      have hread : readH (add_to_table h table r y l).1 r2 = readH h r2 := by
        rw [hδ]
        exact readH_append h δ r2 hlt2
      rw [hread] at hne heq
      exact Or.inr ⟨r2, by simp [hr2], hne, heq⟩

/-- The table component of one standings-loop step. -/
theorem addStandings_step_snd (h : Heap) (table : List Rec) (r : Nat) (y : Int)
    (l : String) :
    (add_to_table (normalize_standings_on_heap h r).1 table
        (normalize_standings_on_heap h r).2 y l).2
      = table ++ (if readH h r = [] then []
          else if normalize_standings_row (readH h r) = [] then []
          else [stampRec (normalize_standings_row (readH h r)) y l]) := by
  unfold normalize_standings_on_heap
  dsimp only
  by_cases hemp : readH h r = []
  · rw [if_pos hemp]
    dsimp only
    rw [add_to_table_snd, hemp]
    simp [normalize_standings_row]
  · rw [if_neg hemp]
    dsimp only
    rw [add_to_table_snd, readH_append_self]
    rw [if_neg hemp]

/-- Records appended by the standings loop are stamped normalized copies of
the records its references point to. -/
theorem addAllStandings_mem (refs : List Nat) (h : Heap) (table : List Rec)
    (y : Int) (l : String) (hw : ∀ x ∈ refs, x < h.length) (rec : Rec)
    (hmem : rec ∈ (addAllStandings h table refs y l).2) :
    rec ∈ table
    ∨ ∃ r ∈ refs, readH h r ≠ [] ∧ normalize_standings_row (readH h r) ≠ []
        ∧ rec = stampRec (normalize_standings_row (readH h r)) y l := by
  induction refs generalizing h table with
  | nil =>
    simp [addAllStandings] at hmem
    exact Or.inl hmem
  | cons r rs ih =>
    rw [addAllStandings_cons] at hmem
    obtain ⟨δ0, h0⟩ := normalize_on_heap_extends h r
    obtain ⟨δ1, h1⟩ := add_to_table_extends (normalize_standings_on_heap h r).1 table
      (normalize_standings_on_heap h r).2 y l
    have hext : (add_to_table (normalize_standings_on_heap h r).1 table
        (normalize_standings_on_heap h r).2 y l).1 = h ++ (δ0 ++ δ1) := by
      rw [h1, h0, List.append_assoc]
    have hw2 : ∀ x ∈ rs, x < (add_to_table (normalize_standings_on_heap h r).1 table
        (normalize_standings_on_heap h r).2 y l).1.length := by
      intro x hx
      rw [hext, List.length_append]
      have := hw x (by simp [hx])
      omega
    rcases ih _ _ hw2 hmem with hin | hin
    · rw [addStandings_step_snd] at hin
      rcases List.mem_append.mp hin with h1m | h1m
      · exact Or.inl h1m
      · by_cases hemp : readH h r = []
        · rw [if_pos hemp] at h1m
          cases h1m
        · rw [if_neg hemp] at h1m
          by_cases hnemp : normalize_standings_row (readH h r) = []
          · rw [if_pos hnemp] at h1m
            cases h1m
          · rw [if_neg hnemp] at h1m
            have h2 : rec = stampRec (normalize_standings_row (readH h r)) y l := by
              simpa using h1m
            exact Or.inr ⟨r, by simp, hemp, hnemp, h2⟩
    · obtain ⟨r2, hr2, hne, hnne, heq⟩ := hin
      have hlt2 : r2 < h.length := hw r2 (by simp [hr2])
      have hread : readH (add_to_table (normalize_standings_on_heap h r).1 table
          (normalize_standings_on_heap h r).2 y l).1 r2 = readH h r2 := by
        rw [hext]
        exact readH_append h _ r2 hlt2
      rw [hread] at hne hnne heq
      exact Or.inr ⟨r2, by simp [hr2], hne, hnne, heq⟩

/-- Hitting records appended by one page's conversion. -/
theorem convertPage_hit_mem (s : ConvOut) (y : Int) (l : String) (data : PageData)
    (hw : ∀ x ∈ pageRefs data, x < s.heap.length) (rec : Rec)
    (hmem : rec ∈ (convertPage s y l data).hit) :
    rec ∈ s.hit ∨ ∃ r ∈ dictGetD data "Hitting Statistics" [],
      readH s.heap r ≠ [] ∧ rec = stampRec (readH s.heap r) y l := by
  unfold convertPage at hmem
  dsimp only at hmem
  exact addAll_mem _ s.heap s.hit y l
    (fun x hx => hw x (mem_dictGetD_pageRefs data _ x hx)) rec hmem

/-- Pitching records appended by one page's conversion. -/
theorem convertPage_pitch_mem (s : ConvOut) (y : Int) (l : String) (data : PageData)
    (hw : ∀ x ∈ pageRefs data, x < s.heap.length) (rec : Rec)
    (hmem : rec ∈ (convertPage s y l data).pitch) :
    rec ∈ s.pitch ∨ ∃ r ∈ dictGetD data "Pitching Statistics" [],
      readH s.heap r ≠ [] ∧ rec = stampRec (readH s.heap r) y l := by
  unfold convertPage at hmem
  dsimp only at hmem
  obtain ⟨δ1, h1⟩ := addAll_extends (dictGetD data "Hitting Statistics" []) s.heap s.hit y l
  have hw2 : ∀ x ∈ dictGetD data "Pitching Statistics" [],
      x < (addAll s.heap s.hit (dictGetD data "Hitting Statistics" []) y l).1.length := by
    intro x hx
    rw [h1, List.length_append]
    have := hw x (mem_dictGetD_pageRefs data _ x hx)
    omega
  rcases addAll_mem _ _ s.pitch y l hw2 rec hmem with hin | hin
  · exact Or.inl hin
  · obtain ⟨r, hr, hne, heq⟩ := hin
    have hlt : r < s.heap.length := hw r (mem_dictGetD_pageRefs data _ r hr)
    have hread : readH (addAll s.heap s.hit (dictGetD data "Hitting Statistics" []) y l).1 r
        = readH s.heap r := by
      rw [h1]
      exact readH_append _ _ r hlt
    rw [hread] at hne heq
    exact Or.inr ⟨r, hr, hne, heq⟩

/-- Standings records appended by one page's conversion. -/
theorem convertPage_standing_mem (s : ConvOut) (y : Int) (l : String) (data : PageData)
    (hw : ∀ x ∈ pageRefs data, x < s.heap.length) (rec : Rec)
    (hmem : rec ∈ (convertPage s y l data).standing) :
    rec ∈ s.standing ∨ ∃ r ∈ dictGetD data "Standings" [],
      readH s.heap r ≠ [] ∧ normalize_standings_row (readH s.heap r) ≠ []
      ∧ rec = stampRec (normalize_standings_row (readH s.heap r)) y l := by
  unfold convertPage at hmem
  dsimp only at hmem
  obtain ⟨δ1, h1⟩ := addAll_extends (dictGetD data "Hitting Statistics" []) s.heap s.hit y l
  obtain ⟨δ2, h2⟩ := addAll_extends (dictGetD data "Pitching Statistics" [])
    (addAll s.heap s.hit (dictGetD data "Hitting Statistics" []) y l).1 s.pitch y l
  have hext : (addAll (addAll s.heap s.hit (dictGetD data "Hitting Statistics" []) y l).1
      s.pitch (dictGetD data "Pitching Statistics" []) y l).1 = s.heap ++ (δ1 ++ δ2) := by
    rw [h2, h1, List.append_assoc]
  have hw2 : ∀ x ∈ dictGetD data "Standings" [],
      x < (addAll (addAll s.heap s.hit (dictGetD data "Hitting Statistics" []) y l).1
        s.pitch (dictGetD data "Pitching Statistics" []) y l).1.length := by
    intro x hx
    rw [hext, List.length_append]
    have := hw x (mem_dictGetD_pageRefs data _ x hx)
    omega
  rcases addAllStandings_mem _ _ s.standing y l hw2 rec hmem with hin | hin
  · exact Or.inl hin
  · obtain ⟨r, hr, hne, hnne, heq⟩ := hin
    have hlt : r < s.heap.length := hw r (mem_dictGetD_pageRefs data _ r hr)
    have hread : readH (addAll (addAll s.heap s.hit
        (dictGetD data "Hitting Statistics" []) y l).1 s.pitch
        (dictGetD data "Pitching Statistics" []) y l).1 r = readH s.heap r := by
      rw [hext]
      exact readH_append _ _ r hlt
    rw [hread] at hne hnne heq
    exact Or.inr ⟨r, hr, hne, hnne, heq⟩

/-- Records appended while folding one year's leagues are stamped (and for
standings, normalized) copies of records of those leagues' pages. -/
theorem innerFold_mem (lgs : List (String × PageData)) (y : Int) (s : ConvOut)
    (h : Heap) (hs : ∃ δ, s.heap = h ++ δ)
    (hw : ∀ ld ∈ lgs, ∀ x ∈ pageRefs ld.2, x < h.length) :
    (∀ rec ∈ (lgs.foldl (fun s ld => convertPage s y ld.1 ld.2) s).hit,
      rec ∈ s.hit ∨ ∃ ld ∈ lgs, ∃ r ∈ dictGetD ld.2 "Hitting Statistics" [],
        readH h r ≠ [] ∧ rec = stampRec (readH h r) y ld.1)
    ∧ (∀ rec ∈ (lgs.foldl (fun s ld => convertPage s y ld.1 ld.2) s).pitch,
      rec ∈ s.pitch ∨ ∃ ld ∈ lgs, ∃ r ∈ dictGetD ld.2 "Pitching Statistics" [],
        readH h r ≠ [] ∧ rec = stampRec (readH h r) y ld.1)
    ∧ (∀ rec ∈ (lgs.foldl (fun s ld => convertPage s y ld.1 ld.2) s).standing,
      rec ∈ s.standing ∨ ∃ ld ∈ lgs, ∃ r ∈ dictGetD ld.2 "Standings" [],
        readH h r ≠ [] ∧ normalize_standings_row (readH h r) ≠ []
        ∧ rec = stampRec (normalize_standings_row (readH h r)) y ld.1) := by
  induction lgs generalizing s with
  | nil =>
    exact ⟨fun rec hr => Or.inl hr, fun rec hr => Or.inl hr, fun rec hr => Or.inl hr⟩
  | cons ld rest ih =>
    obtain ⟨δ, hδ⟩ := hs
    obtain ⟨δ2, hδ2⟩ := convertPage_extends s y ld.1 ld.2
    have hs1 : ∃ δ3, (convertPage s y ld.1 ld.2).heap = h ++ δ3 :=
      ⟨δ ++ δ2, by rw [hδ2, hδ, List.append_assoc]⟩
    have hwpage : ∀ x ∈ pageRefs ld.2, x < s.heap.length := by
      intro x hx
      rw [hδ, List.length_append]
      have := hw ld (by simp) x hx
      omega
    have hread : ∀ x, x ∈ pageRefs ld.2 → readH s.heap x = readH h x := by
      intro x hx
      rw [hδ]
      exact readH_append h δ x (hw ld (by simp) x hx)
    have hwrest : ∀ ld2 ∈ rest, ∀ x ∈ pageRefs ld2.2, x < h.length :=
      fun ld2 hld2 x hx => hw ld2 (by simp [hld2]) x hx
    obtain ⟨ihh, ihp, ihs⟩ := ih (convertPage s y ld.1 ld.2) hs1 hwrest
    refine ⟨?_, ?_, ?_⟩
    · intro rec hr
      rcases ihh rec hr with hin | hin
      · rcases convertPage_hit_mem s y ld.1 ld.2 hwpage rec hin with h2 | h2
        · exact Or.inl h2
        · obtain ⟨r, hrr, hne, heq⟩ := h2
          have hx := hread r (mem_dictGetD_pageRefs ld.2 _ r hrr)
          rw [hx] at hne heq
          exact Or.inr ⟨ld, by simp, r, hrr, hne, heq⟩
      · obtain ⟨ld2, hld2, rest2⟩ := hin
        exact Or.inr ⟨ld2, by simp [hld2], rest2⟩
    · intro rec hr
      rcases ihp rec hr with hin | hin
      · rcases convertPage_pitch_mem s y ld.1 ld.2 hwpage rec hin with h2 | h2
        · exact Or.inl h2
        · obtain ⟨r, hrr, hne, heq⟩ := h2
          have hx := hread r (mem_dictGetD_pageRefs ld.2 _ r hrr)
          rw [hx] at hne heq
          exact Or.inr ⟨ld, by simp, r, hrr, hne, heq⟩
      · obtain ⟨ld2, hld2, rest2⟩ := hin
        exact Or.inr ⟨ld2, by simp [hld2], rest2⟩
    · intro rec hr
      rcases ihs rec hr with hin | hin
      · rcases convertPage_standing_mem s y ld.1 ld.2 hwpage rec hin with h2 | h2
        · exact Or.inl h2
        · obtain ⟨r, hrr, hne, hnne, heq⟩ := h2
          have hx := hread r (mem_dictGetD_pageRefs ld.2 _ r hrr)
          rw [hx] at hne hnne heq
          exact Or.inr ⟨ld, by simp, r, hrr, hne, hnne, heq⟩
      · obtain ⟨ld2, hld2, rest2⟩ := hin
        exact Or.inr ⟨ld2, by simp [hld2], rest2⟩

/-- Decomposition of the flattened records on the first year. -/
theorem flatRecs_cons (h : Heap) (yl : Int × List (String × PageData)) (rest : Acc)
    (kind : String) :
    flatRecs h (yl :: rest) kind
      = yl.2.flatMap (fun ld => (dictGetD ld.2 kind []).map
          (fun ref => (yl.1, ld.1, readH h ref)))
        ++ flatRecs h rest kind := by
  unfold flatRecs
  simp

set_option maxHeartbeats 1000000 in
/-- Records appended by the whole conversion are stamped (and for standings,
normalized) copies of the accumulator's flattened records. -/
theorem convertFold_mem (a : Acc) (s : ConvOut) (h : Heap)
    (hs : ∃ δ, s.heap = h ++ δ)
    (hw : ∀ x ∈ accRefs a, x < h.length) :
    (∀ rec ∈ (a.foldl (fun s yl =>
        yl.2.foldl (fun s ld => convertPage s yl.1 ld.1 ld.2) s) s).hit,
      rec ∈ s.hit ∨ ∃ y l r0, (y, l, r0) ∈ flatRecs h a "Hitting Statistics"
        ∧ r0 ≠ [] ∧ rec = stampRec r0 y l)
    ∧ (∀ rec ∈ (a.foldl (fun s yl =>
        yl.2.foldl (fun s ld => convertPage s yl.1 ld.1 ld.2) s) s).pitch,
      rec ∈ s.pitch ∨ ∃ y l r0, (y, l, r0) ∈ flatRecs h a "Pitching Statistics"
        ∧ r0 ≠ [] ∧ rec = stampRec r0 y l)
    ∧ (∀ rec ∈ (a.foldl (fun s yl =>
        yl.2.foldl (fun s ld => convertPage s yl.1 ld.1 ld.2) s) s).standing,
      rec ∈ s.standing ∨ ∃ y l r0, (y, l, r0) ∈ flatRecs h a "Standings"
        ∧ r0 ≠ [] ∧ normalize_standings_row r0 ≠ []
        ∧ rec = stampRec (normalize_standings_row r0) y l) := by
  induction a generalizing s with
  | nil =>
    exact ⟨fun rec hr => Or.inl hr, fun rec hr => Or.inl hr, fun rec hr => Or.inl hr⟩
  | cons yl rest ih =>
    obtain ⟨δ, hδ⟩ := hs
    obtain ⟨δ2, hδ2⟩ :=
      innerFold_extends yl.2 yl.1 s
    have hs1 : ∃ δ3, ((yl.2.foldl (fun s ld => convertPage s yl.1 ld.1 ld.2) s)).heap
        = h ++ δ3 := ⟨δ ++ δ2, by rw [hδ2, hδ, List.append_assoc]⟩
    have hwyl : ∀ ld ∈ yl.2, ∀ x ∈ pageRefs ld.2, x < h.length := by
      intro ld hld x hx
      apply hw
      unfold accRefs
      exact List.mem_flatMap.mpr ⟨yl, by simp, List.mem_flatMap.mpr ⟨ld, hld, hx⟩⟩
    have hwrest : ∀ x ∈ accRefs rest, x < h.length := by
      intro x hx
      apply hw
      unfold accRefs at hx ⊢
      rw [List.flatMap_cons]
      exact List.mem_append_right _ hx
    obtain ⟨ihh, ihp, ihs⟩ := ih _ hs1 hwrest
    obtain ⟨inh, inp, ins⟩ := innerFold_mem yl.2 yl.1 s h ⟨δ, hδ⟩ hwyl
    refine ⟨?_, ?_, ?_⟩
    · intro rec hr
      rcases ihh rec hr with hin | hin
      · rcases inh rec hin with h2 | h2
        · exact Or.inl h2
        · obtain ⟨ld, hld, r, hrr, hne, heq⟩ := h2
          refine Or.inr ⟨yl.1, ld.1, readH h r, ?_, hne, heq⟩
          rw [flatRecs_cons]
          exact List.mem_append_left _
            (List.mem_flatMap.mpr ⟨ld, hld, List.mem_map.mpr ⟨r, hrr, rfl⟩⟩)
      · obtain ⟨y, l, r0, hm, hrest⟩ := hin
        refine Or.inr ⟨y, l, r0, ?_, hrest⟩
        rw [flatRecs_cons]
        exact List.mem_append_right _ hm
    · intro rec hr
      rcases ihp rec hr with hin | hin
      · rcases inp rec hin with h2 | h2
        · exact Or.inl h2
        · obtain ⟨ld, hld, r, hrr, hne, heq⟩ := h2
          refine Or.inr ⟨yl.1, ld.1, readH h r, ?_, hne, heq⟩
          rw [flatRecs_cons]
          exact List.mem_append_left _
            (List.mem_flatMap.mpr ⟨ld, hld, List.mem_map.mpr ⟨r, hrr, rfl⟩⟩)
      · obtain ⟨y, l, r0, hm, hrest⟩ := hin
        refine Or.inr ⟨y, l, r0, ?_, hrest⟩
        rw [flatRecs_cons]
        exact List.mem_append_right _ hm
    · intro rec hr
      rcases ihs rec hr with hin | hin
      · rcases ins rec hin with h2 | h2
        · exact Or.inl h2
        · obtain ⟨ld, hld, r, hrr, hne, hnne, heq⟩ := h2
          refine Or.inr ⟨yl.1, ld.1, readH h r, ?_, hne, hnne, heq⟩
          rw [flatRecs_cons]
          exact List.mem_append_left _
            (List.mem_flatMap.mpr ⟨ld, hld, List.mem_map.mpr ⟨r, hrr, rfl⟩⟩)
      · obtain ⟨y, l, r0, hm, hrest⟩ := hin
        refine Or.inr ⟨y, l, r0, ?_, hrest⟩
        rw [flatRecs_cons]
        exact List.mem_append_right _ hm

/-- A flattened record is the store's record at one of the accumulator's
references. -/
theorem flatRecs_ref (h : Heap) (acc : Acc) (kind : String) (y : Int) (l : String)
    (r0 : Rec) (hm : (y, l, r0) ∈ flatRecs h acc kind) :
    ∃ ref ∈ accRefs acc, r0 = readH h ref := by
  unfold flatRecs at hm
  obtain ⟨yl, hyl, hm2⟩ := List.mem_flatMap.mp hm
  obtain ⟨ld, hld, hm3⟩ := List.mem_flatMap.mp hm2
  obtain ⟨ref, href, heq⟩ := List.mem_map.mp hm3
  refine ⟨ref, ?_, ?_⟩
  · unfold accRefs
    exact List.mem_flatMap.mpr
      ⟨yl, hyl, List.mem_flatMap.mpr ⟨ld, hld, mem_dictGetD_pageRefs _ _ _ href⟩⟩
  · have := congrArg (fun t : Int × String × Rec => t.2.2) heq
    simpa using this.symm

/-- C3: every record of every flat table produced by the aggregation (hitting,
pitching and standings, for whichever accumulator is converted) is the stamped
copy of a record of the accumulator's flattening, carries `Year` equal to the
year and `League` equal to the league of the page it was extracted under, and
each of the two fields occurs exactly once (the accumulator's records, being
Python dicts, have distinct keys — the hypothesis `hnd`). -/
theorem c3_year_league_stamping (h : Heap) (acc : Acc)
    (hw : ∀ x ∈ accRefs acc, x < h.length)
    (hnd : ∀ x ∈ accRefs acc, keysNodup (readH h x)) :
    (∀ rec ∈ (convert_stats_to_df h acc).hit,
      ∃ y l r0, (y, l, r0) ∈ flatRecs h acc "Hitting Statistics"
        ∧ rec = stampRec r0 y l
        ∧ dictLookup rec "Year" = some (Val.num y)
        ∧ dictLookup rec "League" = some (Val.str l)
        ∧ keyCount rec "Year" = 1 ∧ keyCount rec "League" = 1)
    ∧ (∀ rec ∈ (convert_stats_to_df h acc).pitch,
      ∃ y l r0, (y, l, r0) ∈ flatRecs h acc "Pitching Statistics"
        ∧ rec = stampRec r0 y l
        ∧ dictLookup rec "Year" = some (Val.num y)
        ∧ dictLookup rec "League" = some (Val.str l)
        ∧ keyCount rec "Year" = 1 ∧ keyCount rec "League" = 1)
    ∧ (∀ rec ∈ (convert_stats_to_df h acc).standing,
      ∃ y l r0, (y, l, r0) ∈ flatRecs h acc "Standings"
        ∧ rec = stampRec (normalize_standings_row r0) y l
        ∧ dictLookup rec "Year" = some (Val.num y)
        ∧ dictLookup rec "League" = some (Val.str l)
        ∧ keyCount rec "Year" = 1 ∧ keyCount rec "League" = 1) := by
  obtain ⟨hfh, hfp, hfs⟩ := convertFold_mem acc ⟨h, [], [], []⟩ h ⟨[], by simp⟩ hw
  refine ⟨?_, ?_, ?_⟩
  · intro rec hrec
    rcases hfh rec hrec with hin | ⟨y, l, r0, hm, hne, heq⟩
    · cases hin
    · obtain ⟨ref, href, hr0⟩ := flatRecs_ref h acc _ y l r0 hm
      have hnd0 : keysNodup r0 := by rw [hr0]; exact hnd ref href
      subst heq
      exact ⟨y, l, r0, hm, rfl, stampRec_lookup_year r0 y l,
        stampRec_lookup_league r0 y l, (stampRec_counts r0 y l hnd0).1,
        (stampRec_counts r0 y l hnd0).2⟩
  · intro rec hrec
    rcases hfp rec hrec with hin | ⟨y, l, r0, hm, hne, heq⟩
    · cases hin
    · obtain ⟨ref, href, hr0⟩ := flatRecs_ref h acc _ y l r0 hm
      have hnd0 : keysNodup r0 := by rw [hr0]; exact hnd ref href
      subst heq
      exact ⟨y, l, r0, hm, rfl, stampRec_lookup_year r0 y l,
        stampRec_lookup_league r0 y l, (stampRec_counts r0 y l hnd0).1,
        (stampRec_counts r0 y l hnd0).2⟩
  · intro rec hrec
    rcases hfs rec hrec with hin | ⟨y, l, r0, hm, hne, hnne, heq⟩
    · cases hin
    · obtain ⟨ref, href, hr0⟩ := flatRecs_ref h acc _ y l r0 hm
      have hnd0 : keysNodup (normalize_standings_row r0) := by
        apply keysNodup_normalize
        rw [hr0]
        exact hnd ref href
      subst heq
      exact ⟨y, l, r0, hm, rfl, stampRec_lookup_year _ y l,
        stampRec_lookup_league _ y l, (stampRec_counts _ y l hnd0).1,
        (stampRec_counts _ y l hnd0).2⟩

/-- Witness for C3 on a one-page accumulator. -/
theorem c3_witness :
    ((∀ x ∈ accRefs exAcc, x < exHeap.length)
      ∧ (∀ x ∈ accRefs exAcc, keysNodup (readH exHeap x)))
    ∧ (∀ rec ∈ (convert_stats_to_df exHeap exAcc).hit,
      ∃ y l r0, (y, l, r0) ∈ flatRecs exHeap exAcc "Hitting Statistics"
        ∧ rec = stampRec r0 y l
        ∧ dictLookup rec "Year" = some (Val.num y)
        ∧ dictLookup rec "League" = some (Val.str l)
        ∧ keyCount rec "Year" = 1 ∧ keyCount rec "League" = 1) :=
  ⟨⟨by decide, by simp only [keysNodup, dictKeys]; decide⟩,
   (c3_year_league_stamping exHeap exAcc (by decide)
     (by simp only [keysNodup, dictKeys]; decide)).1⟩

end Diamond
